import Mathlib

/-!
Verification of the mcp-devops repository's mapping-and-routing engine
(canonical mapper, payload validator, resource router, identifier
sanitizer) against its natural-language specification.

The Python sources are shallowly embedded:
* strings are Lean `String`s manipulated through their `List Char` data
  (all string helpers are structural so that concrete instances evaluate
  inside the kernel); lowering/stripping is ASCII, matching the ASCII
  inputs the collection actually contains;
* JSON documents are an inductive `Value` (Python scalars, lists, dicts
  as ordered key/value sequences, mirroring Python dict insertion
  order); Python floats are modelled as exact rationals (the code never
  computes with them, it only passes them through);
* `json.loads` is an external library call; a raw body template is
  therefore embedded in pre-parsed form, `Option Value` (`none` =
  malformed JSON, the `except` path of the source);
* `hashlib.md5` is an external library call; it enters only as an
  abstract deterministic function parameter (the code relies only on
  its determinism and on the length of the hex digest);
* fallible Python operations (attribute errors on non-dict values) are
  embedded with `Except`.
-/

/-! ## ASCII string helpers (structural, kernel-computable) -/

/-- Python `str.strip` whitespace, restricted to ASCII whitespace. -/
def isPySpace (c : Char) : Bool :=
  c == ' ' || c == '\t' || c == '\n' || c == '\r' || c == '\x0b' || c == '\x0c'

/-- Python `str.strip()` on the character list. -/
def pyStripList (l : List Char) : List Char :=
  ((l.dropWhile isPySpace).reverse.dropWhile isPySpace).reverse

def pyStrip (s : String) : String := ⟨pyStripList s.data⟩

/-- Python `str.lower()` (ASCII letters only). -/
def pyLower (s : String) : String := ⟨s.data.map Char.toLower⟩

/-- Python `str.upper()` (ASCII letters only). -/
def pyUpper (s : String) : String := ⟨s.data.map Char.toUpper⟩

/-- Does `l` start with `p`? -/
def listStartsWith : List Char → List Char → Bool
  | _, [] => true
  | [], _ :: _ => false
  | c :: cs, d :: ds => c == d && listStartsWith cs ds

/-- Python `needle in haystack` on character lists. -/
def listContainsSub (hay : List Char) (needle : List Char) : Bool :=
  match hay with
  | [] => listStartsWith [] needle
  | _ :: rest => listStartsWith hay needle || listContainsSub rest needle

/-- Python `needle in haystack` for strings (substring containment). -/
def strContains (hay needle : String) : Bool :=
  listContainsSub hay.data needle.data

/-- Python `s.endswith(t)`. -/
def strEndsWith (s t : String) : Bool :=
  listStartsWith s.data.reverse t.data.reverse

/-- Python `s.startswith(t)`. -/
def strStartsWith (s t : String) : Bool :=
  listStartsWith s.data t.data

/-- Split a character list at every occurrence of `c` (Python `str.split(c)`). -/
def splitCharList (c : Char) : List Char → List (List Char)
  | [] => [[]]
  | ch :: rest =>
    match splitCharList c rest with
    | [] => if ch == c then [[], []] else [[ch]]
    | g :: gs => if ch == c then [] :: g :: gs else (ch :: g) :: gs

/-- Python `s.split(c)` producing strings. -/
def pySplit (c : Char) (s : String) : List String :=
  (splitCharList c s.data).map (fun l => ⟨l⟩)

/-- Python slice `s[:k]` for an arbitrary (possibly negative) bound. -/
def pySliceTo (s : String) (k : Int) : String :=
  if k < 0 then ⟨s.data.take (s.data.length - k.natAbs)⟩
  else ⟨s.data.take k.toNat⟩

/-- Python slice `s[:k]` for a non-negative bound. -/
def strTake (s : String) (k : Nat) : String := ⟨s.data.take k⟩

/-! ## The JSON / Python value model -/

mutual
/-- A Python/JSON value.  Dicts are ordered key/value sequences (Python
dicts preserve insertion order); floats are exact rationals. -/
inductive Value where
  | null
  | bool (b : Bool)
  | int (n : Int)
  | float (q : Rat)
  | str (s : String)
  | list (xs : ValueList)
  | obj (kvs : ValueObj)
  deriving DecidableEq
/-- A sequence of values (a Python/JSON array). -/
inductive ValueList where
  | nil
  | cons (hd : Value) (tl : ValueList)
  deriving DecidableEq
/-- An ordered key/value sequence (a Python/JSON object). -/
inductive ValueObj where
  | nil
  | cons (k : String) (v : Value) (tl : ValueObj)
  deriving DecidableEq
end

instance : BEq Value := ⟨fun x y => decide (x = y)⟩

/-- Build a `ValueList` from a Lean list. -/
def ValueList.ofList : List Value → ValueList
  | [] => .nil
  | v :: rest => .cons v (ValueList.ofList rest)

/-- Build a `ValueObj` from a Lean association list. -/
def ValueObj.ofList : List (String × Value) → ValueObj
  | [] => .nil
  | (k, v) :: rest => .cons k v (ValueObj.ofList rest)

/-- Array literal helper. -/
def Value.arr (xs : List Value) : Value := .list (.ofList xs)

/-- Dict literal helper. -/
def Value.dict (kvs : List (String × Value)) : Value := .obj (.ofList kvs)

/-- The keys of an object, in order. -/
def ValueObj.keys : ValueObj → List String
  | .nil => []
  | .cons k _ rest => k :: ValueObj.keys rest

/-- First-occurrence lookup (Python `d[k]` / `d.get(k)`). -/
def ValueObj.get : ValueObj → String → Option Value
  | .nil, _ => none
  | .cons k' v rest, k => if k' == k then some v else ValueObj.get rest k

/-- Key membership (Python `k in d`). -/
def ValueObj.hasKey : ValueObj → String → Bool
  | .nil, _ => false
  | .cons k' _ rest, k => k' == k || ValueObj.hasKey rest k

/-- The key/value pairs of an object as a Lean list. -/
def ValueObj.toList : ValueObj → List (String × Value)
  | .nil => []
  | .cons k v rest => (k, v) :: ValueObj.toList rest

/-- Python truthiness of a value (`if not expected:` etc.). -/
def pyTruthy : Value → Bool
  | .null => false
  | .bool b => b
  | .int n => n != 0
  | .float q => q != 0
  | .str s => s != ""
  | .list xs => xs != .nil
  | .obj kvs => kvs != .nil

/-- Generic first-occurrence lookup in an ordered association list. -/
def alistGet (m : List (String × α)) (k : String) : Option α :=
  match m with
  | [] => none
  | (k', v) :: rest => if k' == k then some v else alistGet rest k

/-- Key membership (Python `k in d`). -/
def alistHas (m : List (String × α)) (k : String) : Bool :=
  match m with
  | [] => false
  | (k', _) :: rest => k' == k || alistHas rest k

/-- Python `d[k] = v` on an ordered dict: replace in place if the key is
present (keeping its position), otherwise append. -/
def alistSet (m : List (String × α)) (k : String) (v : α) : List (String × α) :=
  match m with
  | [] => [(k, v)]
  | (k', v') :: rest =>
      if k' == k then (k, v) :: rest else (k', v') :: alistSet rest k v

/-! ## Python numeric literal parsing (`int(v)` / `float(v)`)

The validator calls `int(v)` and `float(v)` on stripped, lower-cased
strings.  We embed the numeric-literal grammar on ASCII text: an
optional sign, digit runs with single underscores strictly between
digits, an optional fractional part and an optional exponent for
floats.  (Python would additionally accept some non-ASCII digits; the
collection data is ASCII.) -/

/-- Parse a run of digits with single underscores between digits,
returning the value and the number of digits.  Fails on an empty run,
a leading/trailing underscore or a doubled underscore. -/
def digitRun : List Char → Option (Nat × Nat)
  | [] => none
  | d :: rest =>
      if d.isDigit then digitRunAux (d.toNat - 48) 1 rest else none
where
  digitRunAux (acc count : Nat) : List Char → Option (Nat × Nat)
    | [] => some (acc, count)
    | '_' :: rest =>
        match rest with
        | d :: rest' =>
            if d.isDigit then digitRunAux (acc * 10 + (d.toNat - 48)) (count + 1) rest'
            else none
        | [] => none
    | d :: rest =>
        if d.isDigit then digitRunAux (acc * 10 + (d.toNat - 48)) (count + 1) rest
        else none

/-- Split an optional leading sign.  Returns `(negative, rest)`. -/
def splitSign : List Char → Bool × List Char
  | '+' :: rest => (false, rest)
  | '-' :: rest => (true, rest)
  | l => (false, l)

/-- Python `int(v)` on an already stripped, lower-cased string. -/
def pyInt? (s : String) : Option Int :=
  let (neg, rest) := splitSign s.data
  match digitRun rest with
  | some (n, _) => some (if neg then -(n : Int) else (n : Int))
  | none => none

/-- Mantissa of a float literal: `digits`, `digits.digits?` or `.digits`
(at least one digit).  Returns the value as a rational. -/
def floatMantissa (l : List Char) : Option Rat :=
  match splitCharList '.' l with
  | [a] =>
      match digitRun a with
      | some (n, _) => some (n : Rat)
      | none => none
  | [a, b] =>
      match a, b with
      | [], [] => none
      | [], _ =>
          match digitRun b with
          | some (n, k) => some ((n : Rat) / ((10 : Rat) ^ k))
          | none => none
      | _, [] =>
          match digitRun a with
          | some (n, _) => some ((n : Rat))
          | none => none
      | _, _ =>
          match digitRun a, digitRun b with
          | some (n, _), some (m, k) => some ((n : Rat) + (m : Rat) / ((10 : Rat) ^ k))
          | _, _ => none
  | _ => none

/-- Python `float(v)` on an already stripped, lower-cased string (the
validator only reaches it when `v` contains a decimal point, so the
`inf`/`nan` word forms cannot occur). -/
def pyFloat? (s : String) : Option Rat :=
  let (neg, rest) := splitSign s.data
  match splitCharList 'e' rest with
  | [m] =>
      (floatMantissa m).map (fun q => if neg then -q else q)
  | [m, e] =>
      match floatMantissa m with
      | none => none
      | some q =>
          let (eneg, edigits) := splitSign e
          match digitRun edigits with
          | some (n, _) =>
              let scaled := q * (10 : Rat) ^ (if eneg then -(n : Int) else (n : Int))
              some (if neg then -scaled else scaled)
          | none => none
  | _ => none

/-! ## validator.py -/

/-- Embedding of `validator._infer_type`: scalar type coercion. -/
def _infer_type (value : Value) : Value :=
  match value with
  | .null => .null
  | .bool _ => value
  | .int _ => value
  | .float _ => value
  | .str s =>
      let v := pyLower (pyStrip s)
      if v == "" then .null
      else if v == "true" || v == "false" then .bool (v == "true")
      else if strContains v "." then
        match pyFloat? v with
        | some q => .float q
        | none => value
      else
        match pyInt? v with
        | some n => .int n
        | none => value
  | .list _ => value
  | .obj _ => value

/-- A body template, with `json.loads` of a raw body represented in
pre-parsed form (`none` = malformed JSON, the `except` path). -/
inductive BodyTemplate where
  | empty
  | raw (parse : Option Value)
  | formdata (keys : List String)
  | urlencoded (keys : List String)
  deriving DecidableEq

/-- Embedding of `validator.extract_expected_keys`. -/
def extract_expected_keys : BodyTemplate → Value
  | .raw (some data) =>
      match data with
      | .obj kvs =>
          match kvs.get "data" with
          | some v => v
          | none => .obj .nil
      | _ => .obj .nil
  | _ => .obj .nil

/-- The `corrections` report of `validate_payload`. -/
structure Report where
  removed : List String
  added : List String
  type_fixed : List (String × Value)

/-- One step of the `for k in expected.keys()` loop. -/
def validateStep (payload : List (String × Value))
    (acc : List (String × Value) × List String × List (String × Value))
    (k : String) : List (String × Value) × List String × List (String × Value) :=
  let (clean, added, tf) := acc
  match alistGet payload k with
  | some old =>
      let new := _infer_type old
      (alistSet clean k new, added, if new == old then tf else alistSet tf k new)
  | none => (alistSet clean k .null, added ++ [k], tf)

/-- Embedding of `validator.validate_payload`.  The result is `Except` because
Python raises an `AttributeError` (`expected.keys()`) when the
template's `data` value is a truthy non-dict. -/
def validate_payload (payload : List (String × Value)) (example_body : BodyTemplate) :
    Except Unit (List (String × Value) × Report) :=
  let expected := extract_expected_keys example_body
  if !(pyTruthy expected) then
    .ok (payload.map (fun kv => (kv.1, _infer_type kv.2)), ⟨[], [], []⟩)
  else
    match expected with
    | .obj ekvs =>
        let (clean, added, tf) :=
          ekvs.keys.foldl (validateStep payload) ([], [], [])
        let removed := (payload.map (fun kv => kv.1)).filter (fun k => !(ekvs.hasKey k))
        .ok (clean, ⟨removed, added, tf⟩)
    | _ => .error ()

/-! ## router.py -/

namespace Router

/-- Field hint sets for decision making (`router.py`). -/
def PERSONAL_HINTS : List String :=
  ["first_name", "middle_name", "last_name", "father_name", "mother_name", "spouse_name",
   "dob", "date_of_birth", "gender", "marital_status", "nationality",
   "blood_group", "personal_email", "personal_contact"]

def ADDRESS_HINTS : List String :=
  ["permanent_address", "present_address", "permanent_city", "present_city",
   "permanent_state", "present_state", "permanent_pin", "present_pin",
   "permanent_door_no", "present_door_no"]

def DOCUMENT_HINTS : List String :=
  ["doc_type", "doc_id", "file", "document_number", "document_type", "filename",
   "aadhar_number", "pan_number", "voter_id", "passport_number"]

def BANK_HINTS : List String :=
  ["bank_account_no", "ifsc", "bank_name", "branch_name", "account_holder_name"]

def EMERGENCY_HINTS : List String :=
  ["emergency_contact", "emergency_phone", "emergency_name", "emergency_relation"]

def GENERAL_HINTS : List String :=
  ["status", "active", "remarks", "description", "notes", "comments"]

/-- Non-empty intersection of the payload's key set with a hint set
(Python `keys & HINTS` used as a boolean). -/
def hitsHints (keys : List String) (hints : List String) : Bool :=
  keys.any (fun k => hints.contains k)

/-- Python `payload.get("action") == s`. -/
def actionIs (payload : List (String × Value)) (s : String) : Bool :=
  match alistGet payload "action" with
  | some (.str t) => t == s
  | _ => false

/-- Python `a or b` on optional strings (`None` and `""` are falsy). -/
def pyOrOpt (a b : Option String) : Option String :=
  match a with
  | some s => if s == "" then b else some s
  | none => b

/-- Python `x or None` on an optional string. -/
def pyOrNone (a : Option String) : Option String :=
  match a with
  | some s => if s == "" then none else some s
  | none => none

/-- The `for k in (...)` fallback loop of the employee branch: return
the mapping entry of the first listed key that is present. -/
def firstValIn (m : List (String × String)) : List String → Option String
  | [] => none
  | k :: rest => if alistHas m k then alistGet m k else firstValIn m rest

/-- Embedding of `router.choose_update_endpoint`: decide the most specific endpoint
for an `update` operation based on payload keys. -/
def choose_update_endpoint (resource : String) (payload : List (String × Value))
    (canonical_map : List (String × String)) : Option String :=
  let keys := payload.map (fun kv => pyLower kv.1)
  if resource == "employee" then
    if hitsHints keys DOCUMENT_HINTS && alistHas canonical_map "employee.document.update" then
      alistGet canonical_map "employee.document.update"
    else if hitsHints keys BANK_HINTS && alistHas canonical_map "employee.bank.update" then
      alistGet canonical_map "employee.bank.update"
    else if hitsHints keys EMERGENCY_HINTS && alistHas canonical_map "employee.emergency.update" then
      alistGet canonical_map "employee.emergency.update"
    else if hitsHints keys ADDRESS_HINTS && alistHas canonical_map "employee.address.update" then
      alistGet canonical_map "employee.address.update"
    else if hitsHints keys PERSONAL_HINTS && alistHas canonical_map "employee.details.update" then
      alistGet canonical_map "employee.details.update"
    else if keys.contains "doc_id" || keys.contains "name" then
      match firstValIn canonical_map
          ["employee.details.update", "employee.address.update",
           "employee.document.update", "employee.update"] with
      | some v => some v
      | none => alistGet canonical_map "employee.update"
    else
      alistGet canonical_map "employee.update"
  else if resource == "attendance" then
    if keys.contains "approve" || (keys.contains "action" && actionIs payload "approve") then
      alistGet canonical_map "attendance.record.approve"
    else if keys.contains "reject" || (keys.contains "action" && actionIs payload "reject") then
      alistGet canonical_map "attendance.record.reject"
    else
      alistGet canonical_map "attendance.record.update"
  else if resource == "leave" then
    if keys.contains "approve" || actionIs payload "approve" then
      alistGet canonical_map "leave.request.approve"
    else if keys.contains "reject" || actionIs payload "reject" then
      alistGet canonical_map "leave.request.reject"
    else
      alistGet canonical_map "leave.request.update"
  else if resource == "asset" then
    if keys.contains "approve" || actionIs payload "approve" then
      alistGet canonical_map "asset.request.approve"
    else if keys.contains "reject" || actionIs payload "reject" then
      alistGet canonical_map "asset.request.reject"
    else
      pyOrOpt (alistGet canonical_map "asset.request.update")
        (alistGet canonical_map "asset.master.update")
  else
    pyOrNone (alistGet canonical_map (resource ++ ".update"))

end Router

/-! ## generate_canonical_map.py -/

/-- Lower-case ASCII letter or digit (the `[a-z0-9]` class). -/
def isLowerAlnum (c : Char) : Bool :=
  ('a' ≤ c && c ≤ 'z') || ('0' ≤ c && c ≤ '9')

/-- Model of `re.sub(cls+, rep, l)`: replace every maximal run of characters
outside `good` by the single character `rep`.  The boolean records
whether the previous character was part of a bad run. -/
def subRunsAux (good : Char → Bool) (rep : Char) : Bool → List Char → List Char
  | _, [] => []
  | prevBad, c :: rest =>
      if good c then c :: subRunsAux good rep false rest
      else if prevBad then subRunsAux good rep prevBad rest
      else rep :: subRunsAux good rep true rest

/-- Replace every maximal run of characters outside `good` by `rep`. -/
def subRuns (good : Char → Bool) (rep : Char) (l : List Char) : List Char :=
  subRunsAux good rep false l

/-- Model of `re.sub(cls, rep, l)` (no `+`): replace each character outside
`good` by `rep`. -/
def subEach (good : Char → Bool) (rep : Char) (l : List Char) : List Char :=
  l.map (fun c => if good c then c else rep)

/-- Drop the maximal trailing run of characters satisfying `p`. -/
def dropTrailing (p : Char → Bool) : List Char → List Char
  | [] => []
  | c :: rest =>
      match dropTrailing p rest with
      | [] => if p c then [] else [c]
      | r => c :: r

/-- Python `str.strip(c)`-style strip of characters satisfying `p` from
both ends. -/
def stripEnds (p : Char → Bool) (l : List Char) : List Char :=
  dropTrailing p (l.dropWhile p)

/-- Embedding of `generate_canonical_map.safe_ident`. -/
def safe_ident (s : String) : String :=
  let s1 := pyLower (pyStrip s)
  let s2 := subRuns isLowerAlnum '_' s1.data
  let s3 := stripEnds (fun c => c == '_') (subRuns (fun c => c != '_') '_' s2)
  if s3.isEmpty then "x" else ⟨s3⟩

/-- Embedding of `generate_canonical_map.detect_action`. -/
def detect_action (method url_raw name : String) : String :=
  let u := pyLower url_raw
  let n := pyLower name
  let method := pyUpper method
  if strContains u "approve" || strContains n "approve" then "approve"
  else if strContains u "reject" || strContains n "reject" then "reject"
  else if strContains u "get_records_by_id" || strContains n "get_records_by_id" then "get_by_id"
  else if method == "GET" && strContains u "name=" then "get_by_id"
  else if strContains u "create" || strContains n "create" || method == "POST" then "create"
  else if strContains u "update" || strContains n "update" || method == "PUT" || method == "PATCH" then "update"
  else if method == "DELETE" then "delete"
  else if method == "GET" then "get"
  else pyLower method

/-- An endpoint descriptor as flattened by `parse_collection`.  `url` is
the already-assembled `build_url` result (URL assembly is orthogonal to
the naming claims; it only feeds `detect_action` as a string), and
`body` is the body template. -/
structure Endpoint where
  name : String
  full_name : String
  method : String
  url : String
  body : BodyTemplate
  deriving DecidableEq

/-- Module/resource/action derivation for one endpoint in `main`. -/
def base_key (ep : Endpoint) : String :=
  let parts := (pySplit '/' ep.full_name).filter (fun p => p != "")
  let module :=
    match parts with
    | [] => "hr"
    | p :: _ => safe_ident p
  let resource :=
    match parts with
    | _ :: r :: _ => safe_ident r
    | _ => safe_ident ep.name
  let action := detect_action ep.method ep.url ep.name
  pySliceTo (safe_ident (module ++ "_" ++ resource ++ "_" ++ action)) 55

/-- The collision candidate `base_key[:(64 - len(f"_{i}"))] + f"_{i}"`. -/
def candKey (base : String) (i : Nat) : String :=
  let suffix := "_" ++ Nat.repr i
  pySliceTo base ((64 : Int) - (suffix.length : Int)) ++ suffix

/-- The `while key in mapping` collision loop, with explicit fuel.  The
fuel is always sufficient in `generate_mapping` (see
`findFreshKey_not_mem`). -/
def findFreshKey (ks : List String) (base : String) : Nat → Nat → String
  | 0, i => candKey base i
  | fuel + 1, i =>
      if ks.contains (candKey base i) then findFreshKey ks base fuel (i + 1)
      else candKey base i

/-- Key assignment for one endpoint: the base key if it is fresh,
otherwise the first fresh collision candidate. -/
def assignKey (ks : List String) (base : String) : String :=
  if ks.contains base then findFreshKey ks base (ks.length + 1) 1 else base

/-- The `main` loop of the generator restricted to key assignment: it
folds over the endpoints, assigning each one a fresh canonical key and
storing its entry under that key with Python dict assignment. -/
def generate_mapping_aux : List Endpoint → List (String × Endpoint) → List (String × Endpoint)
  | [], acc => acc
  | ep :: rest, acc =>
      let key := assignKey (acc.map (fun kv => kv.1)) (base_key ep)
      generate_mapping_aux rest (alistSet acc key ep)

/-- Embedding of `generate_canonical_map.main`, key-assignment part: underscore-joined
canonical keys with incrementing-suffix collision resolution. -/
def generate_mapping (eps : List Endpoint) : List (String × Endpoint) :=
  generate_mapping_aux eps []

mutual
/-- Embedding of `generate_canonical_map.sanitize_schema`: convert a raw JSON body
into a JSON-Schema-shaped value. -/
def sanitize_schema : Value → Value
  | .null => .dict [("type", .arr [.str "string", .str "null"])]
  | .bool _ => .dict [("type", .str "boolean")]
  | .int _ => .dict [("type", .str "number")]
  | .float _ => .dict [("type", .str "number")]
  | .str _ => .dict [("type", .str "string")]
  | .obj kvs =>
      .dict [("type", .str "object"),
             ("properties", .obj (sanitizeProps kvs)),
             ("additionalProperties", .bool true)]
  | .list .nil => .dict [("type", .str "array"), ("items", .obj .nil)]
  | .list (.cons x _) => .dict [("type", .str "array"), ("items", sanitize_schema x)]
/-- Model of the comprehension building the `properties` mapping. -/
def sanitizeProps : ValueObj → ValueObj
  | .nil => .nil
  | .cons k v rest => .cons k (sanitize_schema v) (sanitizeProps rest)
end

/-- Python `"data" in parsed` for an arbitrary value: key membership on
a dict, element membership on a list, substring test on a string, and a
`TypeError` (`none`) on scalars — in `main` that error is swallowed by
the bare `except`, so no schema is attached. -/
def memTestData : Value → Option Bool
  | .obj kvs => some (kvs.hasKey "data")
  | .list xs => some (listElemData xs)
  | .str s => some (strContains s "data")
  | _ => none
where
  listElemData : ValueList → Bool
    | .nil => false
    | .cons v rest => (v == Value.str "data") || listElemData rest

/-- The raw-JSON branch of the generator's body handling: the attached
`body_schema`, or `none` when nothing is attached. -/
def rawBodySchema (parsed : Value) : Option Value :=
  match memTestData parsed with
  | none => none
  | some true => some (sanitize_schema parsed)
  | some false =>
      some (.dict [("type", .str "object"),
                   ("properties", .dict [("data", sanitize_schema parsed)]),
                   ("additionalProperties", .bool false)])

/-- The generator's full `body_schema` attachment for one endpoint
(`main`, body handling): only POST/PUT endpoints get a schema; `raw`
templates go through `rawBodySchema`; `formdata`/`urlencoded` templates
produce a flat string-typed schema nested under `data`. -/
def mapper_body_schema (method : String) (body : BodyTemplate) : Option Value :=
  if method == "POST" || method == "PUT" then
    match body with
    | .raw (some parsed) => rawBodySchema parsed
    | .raw none => none
    | .formdata keys | .urlencoded keys =>
        let schema := keys.foldl
          (fun acc k =>
            if k != "" then alistSet acc k (Value.dict [("type", Value.str "string")]) else acc)
          []
        if schema.isEmpty then none
        else
          some (.dict [("type", .str "object"),
                       ("properties",
                         .dict [("data", .dict [("type", .str "object"),
                                                ("properties", .dict schema)])]),
                       ("additionalProperties", .bool false)])
    | .empty => none
  else none

/-! ## server.py -/

/-- The `[a-zA-Z0-9_.]` character class of `claude_safe_tool_name`. -/
def isToolChar (c : Char) : Bool :=
  ('a' ≤ c && c ≤ 'z') || ('A' ≤ c && c ≤ 'Z') || ('0' ≤ c && c ≤ '9') || c == '_' || c == '.'

/-- Embedding of `server.claude_safe_tool_name`, parameterized by the hex digest
function of `hashlib.md5` (an external library call; the code only
relies on it being a deterministic function of the input whose first
six characters fit in the length budget). -/
def claude_safe_tool_name (md5hex : String → String) (name : String) : String :=
  let cleaned := subEach isToolChar '_' name.data
  let cleaned := subRuns (fun c => c != '_') '_' cleaned
  let cleaned := pyLower ⟨stripEnds (fun c => c == '_') cleaned⟩
  if cleaned.length ≤ 64 then cleaned
  else
    let h := strTake (md5hex cleaned) 6
    strTake cleaned (64 - 7) ++ "_" ++ h

/-- Embedding of `server.safe_identifier` (per-character substitution, then collapse). -/
def safe_identifier (s : String) : String :=
  let s1 := pyLower (pyStrip s)
  let s2 := subEach isLowerAlnum '_' s1.data
  let s3 := stripEnds (fun c => c == '_') (subRuns (fun c => c != '_') '_' s2)
  if s3.isEmpty then "x" else ⟨s3⟩

/-- The inline action heuristic of `server.py`'s tool-map construction
(`url` and `name` are already lower-cased, `method` upper-cased). -/
def server_action (method url name_lower : String) : String :=
  if strContains url "get_records_by_id" || strContains name_lower "get_records_by_id"
      || (strContains url "name=" && method == "GET") then "get_by_id"
  else if method == "GET" then "get"
  else if method == "POST" then "create"
  else if method == "PUT" || method == "PATCH" then "update"
  else if method == "DELETE" then "delete"
  else pyLower method

/-- The `module.resource.action` tool key of one endpoint in `server.py`. -/
def server_base_tool_key (md5hex : String → String) (ep : Endpoint) : String :=
  let parts := ((pySplit '/' ep.full_name).map pyStrip).filter (fun p => p != "")
  let module :=
    match parts with
    | [] => "hrms"
    | p :: _ => safe_identifier p
  let resource :=
    match parts with
    | _ :: r :: _ => safe_identifier r
    | _ => safe_identifier ep.name
  let method := pyUpper ep.method
  let url := pyLower ep.url
  let name_lower := pyLower ep.name
  let action := server_action method url name_lower
  claude_safe_tool_name md5hex (module ++ "." ++ resource ++ "." ++ action)

/-- Embedding of `server.py`'s tool-map construction: dot-joined keys; on collision a
4-character content hash of `url + name` is appended once (no retry) and
the entry is stored with Python dict assignment — which overwrites the
earlier entry if the suffixed key still collides. -/
def server_tool_map_aux (md5hex : String → String) :
    List Endpoint → List (String × Endpoint) → List (String × Endpoint)
  | [], acc => acc
  | ep :: rest, acc =>
      let tool_key := server_base_tool_key md5hex ep
      let tool_key :=
        if alistHas acc tool_key then
          claude_safe_tool_name md5hex
            (tool_key ++ "_" ++ strTake (md5hex (ep.url ++ ep.name)) 4)
        else tool_key
      server_tool_map_aux md5hex rest (alistSet acc tool_key ep)

/-- Embedding of the `server.py` `tool_map` construction over an endpoint list. -/
def server_tool_map (md5hex : String → String) (eps : List Endpoint) :
    List (String × Endpoint) :=
  server_tool_map_aux md5hex eps []

/-! ## server_functional.py -/

namespace ServerFunctional

/-- Embedding of `server_functional.CANONICAL_MAP`: functional tool → backend endpoint. -/
def CANONICAL_MAP : List (String × String) := [
  ("hr.state.get", "/api/method/htssuite.master_data.doctype.states.api.get_records"),
  ("hr.state.get_by_id", "/api/method/htssuite.master_data.doctype.states.api.get_records_by_id"),
  ("hr.state.create", "/api/method/htssuite.master_data.doctype.states.api.create_record"),
  ("hr.state.update", "/api/method/htssuite.master_data.doctype.states.api.update_record"),
  ("hr.company.get", "/api/method/htssuite.master_data.doctype.company_setup.api.get_records"),
  ("hr.company.get_by_id", "/api/method/htssuite.master_data.doctype.company_setup.api.get_records_by_id"),
  ("hr.company.create", "/api/method/htssuite.master_data.doctype.company_setup.api.create_record"),
  ("hr.company.update", "/api/method/htssuite.master_data.doctype.company_setup.api.update_record"),
  ("employee.get", "/api/method/htssuite.employee_management.doctype.employee.api.get_records"),
  ("employee.get_by_id", "/api/method/htssuite.employee_management.doctype.employee.api.get_records_by_id"),
  ("employee.create", "/api/method/htssuite.employee_management.doctype.employee.api.create_record"),
  ("employee.details.get", "/api/method/htssuite.employee_management.doctype.personal_details.api.get_records"),
  ("employee.details.get_by_id", "/api/method/htssuite.employee_management.doctype.personal_details.api.get_records_by_id"),
  ("employee.details.create", "/api/method/htssuite.employee_management.doctype.personal_details.api.create_record"),
  ("employee.details.update", "/api/method/htssuite.employee_management.doctype.personal_details.api.update_record"),
  ("employee.address.get", "/api/method/htssuite.employee_management.doctype.address_details.api.get_records"),
  ("employee.address.get_by_id", "/api/method/htssuite.employee_management.doctype.address_details.api.get_records_by_id"),
  ("employee.address.update", "/api/method/htssuite.employee_management.doctype.address_details.api.update_record"),
  ("employee.document.get", "/api/method/htssuite.employee_management.doctype.document_details.api.get_records"),
  ("employee.document.get_by_id", "/api/method/htssuite.employee_management.doctype.document_details.api.get_records_by_id"),
  ("employee.document.create", "/api/method/htssuite.employee_management.doctype.document_details.api.create_record"),
  ("employee.document.update", "/api/method/htssuite.employee_management.doctype.document_details.api.update_record"),
  ("attendance.record.get", "/api/method/htssuite.attendance_management.doctype.attendance.api.get_records"),
  ("attendance.record.get_by_id", "/api/method/htssuite.attendance_management.doctype.attendance.api.get_records_by_id"),
  ("attendance.record.update", "/api/method/htssuite.attendance_management.doctype.attendance.api.update_record"),
  ("attendance.record.approve", "/api/method/htssuite.leave_management.doctype.attendance_reconcilation.api.approval"),
  ("attendance.record.reject", "/api/method/htssuite.leave_management.doctype.attendance_reconcilation.api.rejection"),
  ("attendance.record.reconcile", "/api/method/htssuite.leave_management.doctype.attendance_reconcilation.api.erp_status_filters"),
  ("leave.request.get", "/api/method/htssuite.leave_management.doctype.leave_request.api.get_records"),
  ("leave.request.create", "/api/method/htssuite.leave_management.doctype.leave_request.api.create_record"),
  ("leave.request.update", "/api/method/htssuite.leave_management.doctype.leave_request.api.update_record"),
  ("leave.request.approve", "/api/method/htssuite.leave_management.doctype.leave_request.api.approve"),
  ("leave.request.reject", "/api/method/htssuite.leave_management.doctype.leave_request.api.reject"),
  ("payroll.allowance.get", "/api/method/htssuite.payroll_configurations.doctype.additional_allowance.api.get_records"),
  ("payroll.allowance.create", "/api/method/htssuite.payroll_configurations.doctype.additional_allowance.api.create_record"),
  ("payroll.allowance.update", "/api/method/htssuite.payroll_configurations.doctype.additional_allowance.api.update_record"),
  ("payroll.overtime.get", "/api/method/htssuite.payroll_configurations.doctype.over_time_category_details.api.get_records"),
  ("payroll.overtime.create", "/api/method/htssuite.payroll_configurations.doctype.over_time_category_details.api.create_record"),
  ("payroll.overtime.update", "/api/method/htssuite.payroll_configurations.doctype.over_time_category_details.api.update_record"),
  ("asset.master.get", "/api/method/htssuite.assets_management.doctype.assets_master.api.get_records"),
  ("asset.master.create", "/api/method/htssuite.assets_management.doctype.assets_master.api.create_record"),
  ("asset.master.update", "/api/method/htssuite.assets_management.doctype.assets_master.api.update_record"),
  ("asset.request.get", "/api/method/htssuite.assets_management.doctype.asset_request.api.get_records"),
  ("asset.request.create", "/api/method/htssuite.assets_management.doctype.asset_request.api.create_record"),
  ("asset.request.update", "/api/method/htssuite.assets_management.doctype.asset_request.api.update_record"),
  ("asset.request.approve", "/api/method/htssuite.assets_management.doctype.asset_request.api.approve_record"),
  ("asset.request.reject", "/api/method/htssuite.assets_management.doctype.asset_request.api.reject_record"),
  ("reimbursement.get", "/api/method/htssuite.reimbursement.doctype.reimbursement_request.api.get_records"),
  ("reimbursement.get_by_id", "/api/method/htssuite.reimbursement.doctype.reimbursement_request.api.get_records_by_id"),
  ("reimbursement.create", "/api/method/htssuite.reimbursement.doctype.reimbursement_request.api.create_record"),
  ("reimbursement.update", "/api/method/htssuite.reimbursement.doctype.reimbursement_request.api.update_record"),
  ("inv.country.get", "/api/method/htsinventory.inventory_general_setup.doctype.inventory_country.api.get_records"),
  ("inv.country.create", "/api/method/htsinventory.inventory_general_setup.doctype.inventory_country.api.create_record"),
  ("inv.state.get", "/api/method/htsinventory.inventory_general_setup.doctype.inventory_state.api.get_records"),
  ("inv.stock.get", "/api/method/htsinventory.inventory_management.doctype.inventory_stock.api.get_records"),
  ("inv.reconciliation.get", "/api/method/htsinventory.inventory_management.doctype.inventory_reconciliation.api.get_records_v1"),
  ("inv.reconciliation.create", "/api/method/htsinventory.inventory_management.doctype.inventory_reconciliation.api.create_record")]

/-- Embedding of `server_functional.choose_update_endpoint` (the module-level hybrid
helper, with its own smaller hint sets and un-lowered keys). -/
def choose_update_endpoint (resource : String) (payload : List (String × Value)) :
    Option String :=
  let keys := payload.map (fun kv => kv.1)
  let personal_hint := ["father_name", "mother_name", "spouse_name", "dob", "gender", "marital_status"]
  let address_hint := ["permanent_door_no", "permanent_state", "permanent_city", "permanent_pin"]
  let document_hint := ["file", "doc_type", "doc_id", "filename"]
  if Router.hitsHints keys personal_hint && alistHas CANONICAL_MAP "employee.details.update" then
    alistGet CANONICAL_MAP "employee.details.update"
  else if Router.hitsHints keys address_hint && alistHas CANONICAL_MAP "employee.address.update" then
    alistGet CANONICAL_MAP "employee.address.update"
  else if Router.hitsHints keys document_hint && alistHas CANONICAL_MAP "employee.document.update" then
    alistGet CANONICAL_MAP "employee.document.update"
  else if keys.contains "doc_id" || keys.contains "name" then
    match Router.firstValIn CANONICAL_MAP
        ["employee.details.update", "employee.address.update",
         "employee.document.update", "employee.update"] with
    | some v => some v
    | none => Router.pyOrNone (alistGet CANONICAL_MAP (resource ++ ".update"))
  else
    Router.pyOrNone (alistGet CANONICAL_MAP (resource ++ ".update"))

/-- What a tool handler does before any network traffic: either a fully
assembled upstream HTTP request (handed to the external transport), or
an inline result envelope returned without calling upstream. -/
inductive Outcome where
  | callUpstream (method : String) (url : String) (body : Option Value)
      (params : List (String × Value))
  | envelope (v : Value)

/-- Python `lst[0]` on a split result (`tool_name.split(".")[0]`; a
split result is never empty). -/
def listHead0 : List String → String
  | [] => ""
  | s :: _ => s

/-- Python `a or b` where `a` is an optional string and `b` a string. -/
def pyOrStr (a : Option String) (b : String) : String :=
  match a with
  | some s => if s == "" then b else s
  | none => b

/-- The kwargs partition loop of `make_tool_handler.handler`. -/
def partitionKwargs (kwargs : List (String × Value)) :
    List (String × Value) × List (String × Value) :=
  kwargs.foldl
    (fun acc kv =>
      let (params, data) := acc
      let (k, v) := kv
      if k == "page" || k == "page_length" then (alistSet params k v, data)
      else
        match v, k == "data" with
        | .obj kvs, true => (params, kvs.toList.foldl (fun d kv2 => alistSet d kv2.1 kv2.2) data)
        | _, _ =>
            if strStartsWith k "query_" then (alistSet params (⟨k.data.drop 6⟩ : String) v, data)
            else (params, alistSet data k v))
    ([], [])

/-- Embedding of `server_functional.make_tool_handler`'s `handler`, up to the
boundary of the outbound HTTP call. -/
def make_tool_handler (tool_name method : String) (kwargs : List (String × Value)) :
    Outcome :=
  let canonical := alistGet CANONICAL_MAP tool_name
  let (params, data) := partitionKwargs kwargs
  let methodU := pyUpper method
  if methodU == "GET" then
    .callUpstream "GET" (pyOrStr canonical tool_name) none params
  else if methodU == "POST" || methodU == "PUT" || methodU == "PATCH" then
    if strEndsWith tool_name ".update" && canonical == none then
      let resource := listHead0 (pySplit '.' tool_name)
      let chosen := choose_update_endpoint resource data
      match chosen with
      | some c =>
          if c == "" then
            .envelope (.dict [("error", .bool true),
              ("body", .str ("No backend endpoint mapped for " ++ tool_name ++ " with provided payload"))])
          else
            .callUpstream methodU c (some (.dict [("data", .dict data)])) params
      | none =>
          .envelope (.dict [("error", .bool true),
            ("body", .str ("No backend endpoint mapped for " ++ tool_name ++ " with provided payload"))])
    else
      match canonical with
      | some c =>
          if c == "" then
            .envelope (.dict [("error", .bool true),
              ("body", .str ("No canonical endpoint defined for " ++ tool_name))])
          else
            .callUpstream methodU c (some (.dict [("data", .dict data)])) params
      | none =>
          .envelope (.dict [("error", .bool true),
            ("body", .str ("No canonical endpoint defined for " ++ tool_name))])
  else
    match canonical with
    | some c =>
        if c == "" then
          .envelope (.dict [("error", .bool true),
            ("body", .str ("No canonical endpoint defined for " ++ tool_name))])
        else
          .callUpstream methodU c
            (if data.isEmpty then none else some (.dict [("data", .dict data)])) params
    | none =>
        .envelope (.dict [("error", .bool true),
          ("body", .str ("No canonical endpoint defined for " ++ tool_name))])

end ServerFunctional

/-! ## Specification-side definitions and decoding helpers used by the claim theorems -/

/-- A token occurring as a case-insensitive substring of the URL or the
display name (the claim's matching discipline). -/
def tokenIn (tok url name : String) : Bool :=
  strContains (pyLower url) tok || strContains (pyLower name) tok

/-- The action-classification precedence exactly as the specification
words it: approve, reject, `get_records_by_id`-or-GET-with-`name=`,
create-or-POST, update-or-PUT/PATCH, DELETE, GET, lower-cased method. -/
def detectActionSpec (method url name : String) : String :=
  if tokenIn "approve" url name then "approve"
  else if tokenIn "reject" url name then "reject"
  else if tokenIn "get_records_by_id" url name
      || (pyUpper method == "GET" && strContains (pyLower url) "name=") then "get_by_id"
  else if tokenIn "create" url name || pyUpper method == "POST" then "create"
  else if tokenIn "update" url name || pyUpper method == "PUT"
      || pyUpper method == "PATCH" then "update"
  else if pyUpper method == "DELETE" then "delete"
  else if pyUpper method == "GET" then "get"
  else pyLower method

/-- The specification's fixed hint priority order for the employee
family: document, bank, emergency-contact, address, personal details —
each paired with its sub-resource update endpoint key. -/
def employeePriority : List (List String × String) :=
  [(Router.DOCUMENT_HINTS, "employee.document.update"),
   (Router.BANK_HINTS, "employee.bank.update"),
   (Router.EMERGENCY_HINTS, "employee.emergency.update"),
   (Router.ADDRESS_HINTS, "employee.address.update"),
   (Router.PERSONAL_HINTS, "employee.details.update")]

/-- First entry of the priority list whose hint set intersects the keys
and whose endpoint key exists in the mapping. -/
def firstHintMatch (keys : List String) (m : List (String × String)) :
    List (List String × String) → Option String
  | [] => none
  | (hints, key) :: rest =>
      if Router.hitsHints keys hints && alistHas m key then alistGet m key
      else firstHintMatch keys m rest

/-- The employee routing rule exactly as the specification words it. -/
def employeeRouteSpec (payload : List (String × Value)) (m : List (String × String)) :
    Option String :=
  let keys := payload.map (fun kv => pyLower kv.1)
  match firstHintMatch keys m employeePriority with
  | some v => some v
  | none =>
      if keys.contains "doc_id" || keys.contains "name" then
        match Router.firstValIn m
            ["employee.details.update", "employee.address.update",
             "employee.document.update", "employee.update"] with
        | some v => some v
        | none => alistGet m "employee.update"
      else alistGet m "employee.update"

/-- The coercion rule exactly as the specification words it: `None` maps
to `None`; booleans and numbers pass through; an empty or all-whitespace
string becomes null; the trimmed case-insensitive tokens `true`/`false`
become the corresponding boolean; a string containing a decimal point
that parses as a number becomes a floating-point number; a string
without a decimal point that parses as an integer becomes an integer;
any other string is returned unchanged with its original casing and
whitespace; non-scalar values pass through uncoerced. -/
def inferTypeSpec (value : Value) : Value :=
  match value with
  | .null => .null
  | .bool _ => value
  | .int _ => value
  | .float _ => value
  | .str s =>
      let t := pyLower (pyStrip s)
      if t == "" then .null
      else if t == "true" then .bool true
      else if t == "false" then .bool false
      else if strContains t "." then
        match pyFloat? t with
        | some q => .float q
        | none => .str s
      else
        match pyInt? t with
        | some n => .int n
        | none => .str s
  | .list _ => value
  | .obj _ => value

/-- The amended description of the raw-JSON branch: the branch test is
Python `"data" in parsed` (key membership on an object, element
membership on an array, substring test on a string); when it succeeds
the schema is `sanitize_schema` of the whole parsed value (additional
properties tolerated at the top), when it fails the whole parsed value
is wrapped under a synthetic `data` property marked as not tolerating
additional properties, and when the membership test raises (number,
boolean or null JSON) the error is swallowed and no schema is
attached. -/
def rawBodySchemaSpec (parsed : Value) : Option Value :=
  let wrap := some (Value.dict
    [("type", .str "object"),
     ("properties", .dict [("data", sanitize_schema parsed)]),
     ("additionalProperties", .bool false)])
  match parsed with
  | .obj kvs => if kvs.hasKey "data" then some (sanitize_schema parsed) else wrap
  | .list xs => if memTestData.listElemData xs then some (sanitize_schema parsed) else wrap
  | .str s => if strContains s "data" then some (sanitize_schema parsed) else wrap
  | _ => none

/-- No two adjacent underscores. -/
def noDD : List Char → Bool
  | [] => true
  | [_] => true
  | a :: b :: rest => !(a == '_' && b == '_') && noDD (b :: rest)

/-- Does the list start with an underscore? -/
def headUnd : List Char → Bool
  | '_' :: _ => true
  | _ => false

/-- Does the list end with an underscore? -/
def lastUnd : List Char → Bool
  | [] => false
  | [c] => c == '_'
  | _ :: rest => lastUnd rest

/-- Recognizer for the identifier language of the specification:
lower-case alphanumeric chunks joined by single `_` separators, with no
leading or trailing separator and at least one chunk.  The state is
`true` while inside a chunk with at least one character seen. -/
def identAut : Bool → List Char → Bool
  | st, [] => st
  | false, c :: rest => isLowerAlnum c && identAut true rest
  | true, c :: rest =>
      if c == '_' then identAut false rest
      else isLowerAlnum c && identAut true rest

/-- Decimal digits of `n`, most significant first (the recursive
specification of `Nat.toDigits 10`). -/
def digitsRec (n : Nat) : List Char :=
  if n < 10 then [Nat.digitChar n]
  else digitsRec (n / 10) ++ [Nat.digitChar (n % 10)]
decreasing_by
  exact Nat.div_lt_self (by omega) (by omega)

/-- Decode a decimal digit character. -/
def charDigitVal (c : Char) : Nat := c.toNat - 48

/-- Decode a most-significant-first digit list. -/
def decDigits (l : List Char) : Nat := l.foldl (fun a c => 10 * a + charDigitVal c) 0

/-! ## Claim C1: action classification -/

theorem char_toNat_ofNat_of_lt (n : Nat) (h : n < 0xd800) : (Char.ofNat n).toNat = n := by
  unfold Char.ofNat
  rw [dif_pos (Or.inl h)]
  simp [Char.toNat, Char.ofNatAux, UInt32.ofNat', UInt32.toNat, BitVec.toNat_ofNatLt]

theorem toLower_toUpper (c : Char) : c.toUpper.toLower = c.toLower := by
  by_cases h : 97 ≤ c.toNat ∧ c.toNat ≤ 122
  · have h1 : c.toUpper = Char.ofNat (c.toNat - 32) := by
      unfold Char.toUpper
      rw [if_pos h]
    have h2 : (Char.ofNat (c.toNat - 32)).toNat = c.toNat - 32 :=
      char_toNat_ofNat_of_lt _ (by omega)
    rw [h1]
    unfold Char.toLower
    simp only [h2]
    rw [if_pos (by omega), if_neg (by omega)]
    have h3 : c.toNat - 32 + 32 = c.toNat := by omega
    rw [h3, Char.ofNat_toNat]
  · have h1 : c.toUpper = c := by
      unfold Char.toUpper
      rw [if_neg h]
    rw [h1]

theorem pyLower_pyUpper (s : String) : pyLower (pyUpper s) = pyLower s := by
  show (⟨(s.data.map Char.toUpper).map Char.toLower⟩ : String) = ⟨s.data.map Char.toLower⟩
  rw [List.map_map]
  congr 1
  apply List.map_congr_left
  intro a _
  exact toLower_toUpper a

/-- Claim C1: for every endpoint the action classifier follows the fixed
precedence of the specification, first match winning, with
case-insensitive substring matching against URL and display name; in
particular the three sample classifications hold (the approve token
wins over the PUT method). -/
theorem C1_detect_action_precedence :
    (∀ method url name,
      detect_action method url name = detectActionSpec method url name) ∧
    detect_action "POST" "/x/create_record" "Create Employee" = "create" ∧
    detect_action "GET" "/x/get_records_by_id?name=E001" "Get By Id" = "get_by_id" ∧
    detect_action "PUT" "/x/anything" "Approve Leave" = "approve" := by
  refine ⟨?_, rfl, rfl, rfl⟩
  intro method url name
  simp only [detect_action, detectActionSpec, tokenIn, pyLower_pyUpper]
  split_ifs <;> simp_all

/-! ## Claim C3: employee update routing -/

theorem alistHas_eq_isSome (m : List (String × α)) (k : String) :
    alistHas m k = (alistGet m k).isSome := by
  induction m with
  | nil => rfl
  | cons kv rest ih =>
      obtain ⟨k', v⟩ := kv
      simp only [alistHas, alistGet]
      by_cases h : (k' == k) = true
      · simp [h]
      · simp [h, ih]

/-- Claim C3: for every payload, the update router with resource
`employee` follows the document → bank → emergency → address → personal
priority, returning the first sub-resource update endpoint whose hint
set intersects the lower-cased keys and whose key is mapped, with the
`doc_id`/`name` fallback chain and the generic `employee.update`
default; in particular a payload with both a document hint and a
personal hint routes to the document-update endpoint. -/
theorem C3_employee_routing :
    (∀ payload m,
      Router.choose_update_endpoint "employee" payload m = employeeRouteSpec payload m) ∧
    Router.choose_update_endpoint "employee"
      [("doc_id", .str "D1"), ("father_name", .str "X")]
      ServerFunctional.CANONICAL_MAP
    = some "/api/method/htssuite.employee_management.doctype.document_details.api.update_record" := by
  constructor
  · intro payload m
    simp only [Router.choose_update_endpoint, employeeRouteSpec, firstHintMatch,
      employeePriority]
    rw [if_pos (show (("employee" : String) == "employee") = true from rfl)]
    set keys := payload.map (fun kv => pyLower kv.1) with hkeys
    by_cases h1 : (Router.hitsHints keys Router.DOCUMENT_HINTS
        && alistHas m "employee.document.update") = true
    · rcases Bool.and_eq_true .. |>.mp h1 with ⟨-, hhas⟩
      rw [alistHas_eq_isSome] at hhas
      cases hv : alistGet m "employee.document.update" with
      | none => rw [hv] at hhas; exact absurd hhas (by simp)
      | some v => simp only [if_pos h1, hv]
    · rw [if_neg h1, if_neg h1]
      by_cases h2 : (Router.hitsHints keys Router.BANK_HINTS
          && alistHas m "employee.bank.update") = true
      · rcases Bool.and_eq_true .. |>.mp h2 with ⟨-, hhas⟩
        rw [alistHas_eq_isSome] at hhas
        cases hv : alistGet m "employee.bank.update" with
        | none => rw [hv] at hhas; exact absurd hhas (by simp)
        | some v => simp only [if_pos h2, hv]
      · rw [if_neg h2, if_neg h2]
        by_cases h3 : (Router.hitsHints keys Router.EMERGENCY_HINTS
            && alistHas m "employee.emergency.update") = true
        · rcases Bool.and_eq_true .. |>.mp h3 with ⟨-, hhas⟩
          rw [alistHas_eq_isSome] at hhas
          cases hv : alistGet m "employee.emergency.update" with
          | none => rw [hv] at hhas; exact absurd hhas (by simp)
          | some v => simp only [if_pos h3, hv]
        · rw [if_neg h3, if_neg h3]
          by_cases h4 : (Router.hitsHints keys Router.ADDRESS_HINTS
              && alistHas m "employee.address.update") = true
          · rcases Bool.and_eq_true .. |>.mp h4 with ⟨-, hhas⟩
            rw [alistHas_eq_isSome] at hhas
            cases hv : alistGet m "employee.address.update" with
            | none => rw [hv] at hhas; exact absurd hhas (by simp)
            | some v => simp only [if_pos h4, hv]
          · rw [if_neg h4, if_neg h4]
            by_cases h5 : (Router.hitsHints keys Router.PERSONAL_HINTS
                && alistHas m "employee.details.update") = true
            · rcases Bool.and_eq_true .. |>.mp h5 with ⟨-, hhas⟩
              rw [alistHas_eq_isSome] at hhas
              cases hv : alistGet m "employee.details.update" with
              | none => rw [hv] at hhas; exact absurd hhas (by simp)
              | some v => simp only [if_pos h5, hv]
            · rw [if_neg h5, if_neg h5]
  · rfl

/-! ## Claims C5 and C10: scalar type coercion -/

/-- Claim C5: the type-coercion function agrees with the
specification's case analysis on every value. -/
theorem C5_infer_type_characterization :
    ∀ v, _infer_type v = inferTypeSpec v := by
  intro v
  cases v with
  | str s =>
      simp only [_infer_type, inferTypeSpec]
      by_cases h1 : (pyLower (pyStrip s) == "") = true
      · simp [h1]
      · by_cases h2 : (pyLower (pyStrip s) == "true") = true
        · simp [h1, h2]
        · by_cases h3 : (pyLower (pyStrip s) == "false") = true
          · simp [h1, h2, h3]
          · simp [h1, h2, h3]
  | null => rfl
  | bool b => rfl
  | int n => rfl
  | float q => rfl
  | list xs => rfl
  | obj kvs => rfl

/-- Claim C10: the coercion is idempotent — a value already coerced is
a fixed point of further coercion. -/
theorem C10_infer_type_idempotent :
    ∀ v, _infer_type (_infer_type v) = _infer_type v := by
  intro v
  cases v with
  | str s =>
      by_cases h1 : (pyLower (pyStrip s) == "") = true
      · simp [_infer_type, h1]
      · by_cases h2 : (pyLower (pyStrip s) == "true" || pyLower (pyStrip s) == "false") = true
        · simp [_infer_type, h1, h2]
        · by_cases h3 : strContains (pyLower (pyStrip s)) "." = true
          · cases hf : pyFloat? (pyLower (pyStrip s)) with
            | some q => simp [_infer_type, h1, h2, h3, hf]
            | none => simp [_infer_type, h1, h2, h3, hf]
          · cases hi : pyInt? (pyLower (pyStrip s)) with
            | some n => simp [_infer_type, h1, h2, h3, hi]
            | none => simp [_infer_type, h1, h2, h3, hi]
  | null => rfl
  | bool b => rfl
  | int n => rfl
  | float q => rfl
  | list xs => rfl
  | obj kvs => rfl

/-! ## Claim C6: raw body schema attachment -/

/-- Claim C6, counterexample to the claim as stated: (a) the raw JSON
text `5` is parseable, yet the mapper attaches no schema at all (the
membership test raises a `TypeError` that the bare `except`
swallows); (b) the schema attached when a top-level `data` field is
present is not derived from that field's value — two bodies with the
identical `data` value get different schemas because the whole parsed
object is sanitized. -/
theorem C6_counterexample :
    mapper_body_schema "POST" (.raw (some (.int 5))) = none ∧
    mapper_body_schema "POST" (.raw (some (.dict [("data", .int 1), ("x", .int 2)])))
      ≠ mapper_body_schema "POST" (.raw (some (.dict [("data", .int 1)]))) ∧
    (ValueObj.ofList [("data", .int 1), ("x", .int 2)]).get "data"
      = (ValueObj.ofList [("data", .int 1)]).get "data" := by
  refine ⟨rfl, ?_, rfl⟩
  decide

/-- Claim C6 (amended): for every POST/PUT endpoint whose raw body
template parses, the attached body schema follows `rawBodySchemaSpec`:
sanitize the whole parsed value when the Python membership test
`"data" in parsed` succeeds, wrap it under a synthetic `data` property
with `additionalProperties` false when the test fails, and attach
nothing when the test raises on a scalar. -/
theorem C6_raw_body_schema (method : String) (parsed : Value)
    (hm : method = "POST" ∨ method = "PUT") :
    mapper_body_schema method (.raw (some parsed)) = rawBodySchemaSpec parsed := by
  have hcond : (method == "POST" || method == "PUT") = true := by
    rcases hm with rfl | rfl <;> rfl
  cases parsed with
  | obj kvs =>
      cases hb : kvs.hasKey "data" <;>
        simp [mapper_body_schema, rawBodySchema, rawBodySchemaSpec, memTestData, hcond, hb]
  | list xs =>
      cases hb : memTestData.listElemData xs <;>
        simp [mapper_body_schema, rawBodySchema, rawBodySchemaSpec, memTestData, hcond, hb]
  | str s =>
      cases hb : strContains s "data" <;>
        simp [mapper_body_schema, rawBodySchema, rawBodySchemaSpec, memTestData, hcond, hb]
  | null =>
      simp [mapper_body_schema, rawBodySchema, rawBodySchemaSpec, memTestData, hcond]
  | bool b =>
      simp [mapper_body_schema, rawBodySchema, rawBodySchemaSpec, memTestData, hcond]
  | int n =>
      simp [mapper_body_schema, rawBodySchema, rawBodySchemaSpec, memTestData, hcond]
  | float q =>
      simp [mapper_body_schema, rawBodySchema, rawBodySchemaSpec, memTestData, hcond]

/-- Witness for `C6_raw_body_schema` at a concrete POST endpoint with a
wrapped (no top-level `data`) body. -/
theorem C6_raw_body_schema_witness :
    mapper_body_schema "POST" (.raw (some (.dict [("name", .str "x")])))
      = rawBodySchemaSpec (.dict [("name", .str "x")]) :=
  C6_raw_body_schema "POST" (.dict [("name", .str "x")]) (Or.inl rfl)

/-! ## Claim C7: hybrid update routing failure -/

/-- Claim C7: when a hybrid `.update` tool (no canonical entry bound at
registration) is invoked with POST/PUT/PATCH and the router returns no
endpoint, the handler returns the inline error envelope describing the
missing mapping — it is a value, not an upstream call, so no HTTP
request is issued and no exception escapes. -/
theorem C7_routing_failure_envelope (tool_name method : String)
    (kwargs : List (String × Value))
    (hm : pyUpper method = "POST" ∨ pyUpper method = "PUT" ∨ pyUpper method = "PATCH")
    (hend : strEndsWith tool_name ".update" = true)
    (hcanon : alistGet ServerFunctional.CANONICAL_MAP tool_name = none)
    (hroute : ServerFunctional.choose_update_endpoint
        (ServerFunctional.listHead0 (pySplit '.' tool_name))
        (ServerFunctional.partitionKwargs kwargs).2 = none) :
    ServerFunctional.make_tool_handler tool_name method kwargs
      = .envelope (.dict [("error", .bool true),
          ("body", .str ("No backend endpoint mapped for " ++ tool_name
            ++ " with provided payload"))]) := by
  unfold ServerFunctional.make_tool_handler
  rcases hm with h | h | h <;>
    simp [h, hend, hcanon, hroute]

/-- Witness: invoking the hybrid `employee.update` tool with an empty
payload routes nowhere and yields the error envelope. -/
theorem C7_routing_failure_envelope_witness :
    ServerFunctional.make_tool_handler "employee.update" "PUT" []
      = .envelope (.dict [("error", .bool true),
          ("body", .str ("No backend endpoint mapped for employee.update"
            ++ " with provided payload"))]) := by
  have h := C7_routing_failure_envelope "employee.update" "PUT" []
    (Or.inr (Or.inl rfl)) rfl (by decide) (by decide)
  simpa using h

/-! ## Claim C9: validator totality -/

/-- Claim C9, counterexample to the claim as stated: a template whose
raw JSON parses to `{"data": [1]}` — a structurally valid template with
an unexpected `data` shape — makes `validate_payload` raise (Python
`AttributeError` on `expected.keys()`), modelled as the `error`
result. -/
theorem C9_counterexample :
    validate_payload [("x", .int 1)] (.raw (some (.dict [("data", .arr [.int 1])])))
      = .error () := rfl

/-- Claim C9 (amended): `validate_payload` returns a `(clean, report)`
pair without raising for every payload and every template whose
extracted expected value is a mapping or falsy; only a truthy non-dict
`data` value (non-empty list, non-empty string, non-zero number, true)
raises. -/
theorem C9_validate_total (payload : List (String × Value)) (tmpl : BodyTemplate)
    (h : pyTruthy (extract_expected_keys tmpl) = false
        ∨ ∃ kvs, extract_expected_keys tmpl = .obj kvs) :
    ∃ r, validate_payload payload tmpl = .ok r := by
  unfold validate_payload
  by_cases ht : pyTruthy (extract_expected_keys tmpl) = true
  · rcases h with h | ⟨kvs, hkvs⟩
    · rw [h] at ht
      exact absurd ht (by simp)
    · rw [hkvs]
      rw [hkvs] at ht
      simp only [ht]
      exact ⟨_, rfl⟩
  · have ht' : pyTruthy (extract_expected_keys tmpl) = false := by
      cases hx : pyTruthy (extract_expected_keys tmpl)
      · rfl
      · exact absurd hx ht
    simp only [ht']
    exact ⟨_, rfl⟩

/-- Witness: a pass-through validation (empty template) succeeds. -/
theorem C9_validate_total_witness :
    ∃ r, validate_payload [("a", .str "1")] BodyTemplate.empty = .ok r :=
  C9_validate_total [("a", .str "1")] BodyTemplate.empty (Or.inl rfl)

/-! ## Claim C4: validation against a non-empty expected template -/

theorem alistHas_append (a b : List (String × α)) (k : String) :
    alistHas (a ++ b) k = (alistHas a k || alistHas b k) := by
  induction a with
  | nil => rfl
  | cons kv rest ih =>
      obtain ⟨k', v⟩ := kv
      show (k' == k || alistHas (rest ++ b) k) = ((k' == k || alistHas rest k) || alistHas b k)
      rw [ih, Bool.or_assoc]

theorem alistSet_of_not_has (m : List (String × α)) (k : String) (v : α)
    (h : alistHas m k = false) : alistSet m k v = m ++ [(k, v)] := by
  induction m with
  | nil => rfl
  | cons kv rest ih =>
      obtain ⟨k', v'⟩ := kv
      simp only [alistHas, Bool.or_eq_false_iff] at h
      simp [alistSet, h.1, ih h.2]

/-- Unrolled form of the `for k in expected.keys()` loop: with pairwise
distinct keys, the loop appends one clean entry per expected key (the
coerced payload value, or null when absent), records the absent keys in
`added` and the changed coercions in `type_fixed`. -/
theorem validate_foldl (payload : List (String × Value)) :
    ∀ (ks : List String) (clean0 : List (String × Value)) (added0 : List String)
      (tf0 : List (String × Value)),
      ks.Nodup →
      (∀ k ∈ ks, alistHas clean0 k = false) →
      (∀ k ∈ ks, alistHas tf0 k = false) →
      ks.foldl (validateStep payload) (clean0, added0, tf0)
      = (clean0 ++ ks.map (fun k =>
            (k, match alistGet payload k with
                | some w => _infer_type w
                | none => .null)),
         added0 ++ ks.filter (fun k => (alistGet payload k).isNone),
         tf0 ++ ks.filterMap (fun k =>
            match alistGet payload k with
            | some w => if _infer_type w = w then none else some (k, _infer_type w)
            | none => none)) := by
  intro ks
  induction ks with
  | nil => intro clean0 added0 tf0 _ _ _; simp
  | cons k rest ih =>
      intro clean0 added0 tf0 hnd hclean htf
      have hk_clean : alistHas clean0 k = false := hclean k (List.mem_cons_self ..)
      have hk_tf : alistHas tf0 k = false := htf k (List.mem_cons_self ..)
      have hnotmem : k ∉ rest := (List.nodup_cons.mp hnd).1
      have hnd' : rest.Nodup := (List.nodup_cons.mp hnd).2
      rw [List.foldl_cons]
      cases hw : alistGet payload k with
      | some w =>
          by_cases heq : _infer_type w = w
          · have hstep : validateStep payload (clean0, added0, tf0) k
                = (clean0 ++ [(k, _infer_type w)], added0, tf0) := by
              simp only [validateStep, hw]
              rw [alistSet_of_not_has clean0 k _ hk_clean]
              simp [heq]
            rw [hstep, ih (clean0 ++ [(k, _infer_type w)]) added0 tf0 hnd'
              (by
                intro k' hk'
                rw [alistHas_append]
                simp only [hclean k' (List.mem_cons_of_mem _ hk'), Bool.false_or]
                exact (by
                  simp only [alistHas, Bool.or_false]
                  exact beq_eq_false_iff_ne.mpr (fun he => hnotmem (he ▸ hk'))))
              (fun k' hk' => htf k' (List.mem_cons_of_mem _ hk'))]
            simp [hw, heq, List.filter_cons, List.filterMap_cons]
          · have hstep : validateStep payload (clean0, added0, tf0) k
                = (clean0 ++ [(k, _infer_type w)], added0, tf0 ++ [(k, _infer_type w)]) := by
              simp only [validateStep, hw]
              rw [alistSet_of_not_has clean0 k _ hk_clean,
                alistSet_of_not_has tf0 k _ hk_tf]
              simp only [BEq.beq]
              rw [if_neg (by simpa using heq)]
            rw [hstep, ih (clean0 ++ [(k, _infer_type w)]) added0 (tf0 ++ [(k, _infer_type w)]) hnd'
              (by
                intro k' hk'
                rw [alistHas_append]
                simp only [hclean k' (List.mem_cons_of_mem _ hk'), Bool.false_or]
                exact (by
                  simp only [alistHas, Bool.or_false]
                  exact beq_eq_false_iff_ne.mpr (fun he => hnotmem (he ▸ hk'))))
              (by
                intro k' hk'
                rw [alistHas_append]
                simp only [htf k' (List.mem_cons_of_mem _ hk'), Bool.false_or]
                exact (by
                  simp only [alistHas, Bool.or_false]
                  exact beq_eq_false_iff_ne.mpr (fun he => hnotmem (he ▸ hk'))))]
            simp [hw, heq, List.filter_cons, List.filterMap_cons]
      | none =>
          have hstep : validateStep payload (clean0, added0, tf0) k
              = (clean0 ++ [(k, Value.null)], added0 ++ [k], tf0) := by
            simp only [validateStep, hw]
            rw [alistSet_of_not_has clean0 k _ hk_clean]
          rw [hstep, ih (clean0 ++ [(k, Value.null)]) (added0 ++ [k]) tf0 hnd'
            (by
              intro k' hk'
              rw [alistHas_append]
              simp only [hclean k' (List.mem_cons_of_mem _ hk'), Bool.false_or]
              exact (by
                simp only [alistHas, Bool.or_false]
                exact beq_eq_false_iff_ne.mpr (fun he => hnotmem (he ▸ hk'))))
            (fun k' hk' => htf k' (List.mem_cons_of_mem _ hk'))]
          simp [hw, List.filter_cons, List.filterMap_cons]

/-- Claim C4: when the extracted expected key set is non-empty,
`validate_payload` returns a clean mapping holding exactly the expected
keys in template order — the coerced payload value for present keys
(recorded in `type_fixed` when coercion changed it), null for absent
keys (recorded in `added`) — and every unexpected payload key lands in
`removed` and is excluded from `clean`; in particular the claim's
round-trip example holds. -/
theorem C4_validate_expected_shape :
    (∀ (payload : List (String × Value)) (tmpl : BodyTemplate) (ekvs : ValueObj),
      extract_expected_keys tmpl = .obj ekvs →
      ekvs ≠ .nil →
      ekvs.keys.Nodup →
      validate_payload payload tmpl
        = .ok (ekvs.keys.map (fun k =>
              (k, match alistGet payload k with
                  | some w => _infer_type w
                  | none => .null)),
            ⟨(payload.map (fun kv => kv.1)).filter (fun k => !(ekvs.hasKey k)),
             ekvs.keys.filter (fun k => (alistGet payload k).isNone),
             ekvs.keys.filterMap (fun k =>
                match alistGet payload k with
                | some w => if _infer_type w = w then none else some (k, _infer_type w)
                | none => none)⟩)) ∧
    validate_payload [("name", .str "Bob"), ("age", .str "30"), ("extra", .str "z")]
      (.raw (some (.dict [("data", .dict [("name", .null), ("age", .null)])])))
    = .ok ([("name", .str "Bob"), ("age", .int 30)],
           ⟨["extra"], [], [("age", .int 30)]⟩) := by
  constructor
  · intro payload tmpl ekvs hex hne hkeys
    have ht : pyTruthy (.obj ekvs) = true := by
      simp only [pyTruthy]
      exact bne_iff_ne.mpr hne
    simp only [validate_payload, hex, ht, Bool.not_true, Bool.false_eq_true, if_false]
    rw [validate_foldl payload ekvs.keys [] [] [] hkeys
      (fun k _ => rfl) (fun k _ => rfl)]
    simp
  · rfl

/-- Witness for `C4_validate_expected_shape` at the claim's example. -/
theorem C4_validate_expected_shape_witness :
    validate_payload [("name", .str "Bob"), ("age", .str "30"), ("extra", .str "z")]
      (.raw (some (.dict [("data", .dict [("name", .null), ("age", .null)])])))
    = .ok ([("name", .str "Bob"), ("age", .int 30)],
           ⟨["extra"], [], [("age", .int 30)]⟩) := by
  have h := C4_validate_expected_shape.1
    [("name", .str "Bob"), ("age", .str "30"), ("extra", .str "z")]
    (.raw (some (.dict [("data", .dict [("name", .null), ("age", .null)])])))
    (ValueObj.ofList [("name", .null), ("age", .null)]) rfl (by decide) (by decide)
  exact h

/-! ## Claim C8: sanitizer shape, idempotence and the bounded variant -/

theorem noDD_tail (c : Char) (l : List Char) (h : noDD (c :: l) = true) :
    noDD l = true := by
  cases l with
  | nil => rfl
  | cons d rest => exact (Bool.and_eq_true .. |>.mp h).2

theorem noDD_head (c d : Char) (l : List Char) (h : noDD (c :: d :: l) = true)
    (hc : c = '_') : (d == '_') = false := by
  have h1 := (Bool.and_eq_true .. |>.mp h).1
  subst hc
  cases hd : (d == '_')
  · rfl
  · rw [Bool.not_eq_eq_eq_not] at h1
    simp [hd] at h1

theorem subRunsAux_all (good : Char → Bool) (rep : Char) :
    ∀ (l : List Char) (b : Bool), ∀ c ∈ subRunsAux good rep b l,
      (good c || c == rep) = true := by
  intro l
  induction l with
  | nil => intro b c hc; simp [subRunsAux] at hc
  | cons d rest ih =>
      intro b c hc
      simp only [subRunsAux] at hc
      by_cases hg : good d = true
      · rw [if_pos hg] at hc
        rcases List.mem_cons.mp hc with rfl | hc
        · simp [hg]
        · exact ih false c hc
      · rw [if_neg hg] at hc
        cases b with
        | true => exact ih true c hc
        | false =>
            rw [if_neg (by simp)] at hc
            rcases List.mem_cons.mp hc with rfl | hc
            · simp
            · exact ih true c hc

theorem headUnd_cons (c : Char) (l : List Char) : headUnd (c :: l) = (c == '_') := by
  by_cases h : c = '_'
  · subst h; simp [headUnd]
  · have hb : (c == '_') = false := beq_eq_false_iff_ne.mpr h
    rw [hb]
    unfold headUnd
    split
    · rename_i heq
      injection heq with h1 h2
      exact absurd h1 h
    · rfl

theorem noDD_cons_of_ne (c : Char) (l : List Char) (hc : (c == '_') = false)
    (hl : noDD l = true) : noDD (c :: l) = true := by
  cases l with
  | nil => rfl
  | cons d rest => simp [noDD, hc, hl]

theorem noDD_cons_of_headUnd (l : List Char) (hh : headUnd l = false)
    (hl : noDD l = true) : noDD ('_' :: l) = true := by
  cases l with
  | nil => rfl
  | cons d rest =>
      rw [headUnd_cons] at hh
      simp [noDD, hh, hl]

theorem subRunsAux_true_headUnd (good : Char → Bool) (hgu : good '_' = false) :
    ∀ l : List Char, headUnd (subRunsAux good '_' true l) = false := by
  intro l
  induction l with
  | nil => rfl
  | cons c rest ih =>
      simp only [subRunsAux]
      by_cases hg : good c = true
      · rw [if_pos hg, headUnd_cons]
        cases hb : (c == '_')
        · rfl
        · rw [beq_iff_eq] at hb
          rw [hb] at hg
          rw [hg] at hgu
          exact absurd hgu (by simp)
      · rw [if_neg hg]
        simp only [if_true]
        exact ih

theorem subRunsAux_noDD (good : Char → Bool) (hgu : good '_' = false) :
    ∀ (l : List Char) (b : Bool), noDD (subRunsAux good '_' b l) = true := by
  intro l
  induction l with
  | nil => intro b; rfl
  | cons c rest ih =>
      intro b
      simp only [subRunsAux]
      by_cases hg : good c = true
      · rw [if_pos hg]
        apply noDD_cons_of_ne
        · cases hb : (c == '_')
          · rfl
          · rw [beq_iff_eq] at hb
            rw [hb] at hg
            rw [hg] at hgu
            exact absurd hgu (by simp)
        · exact ih false
      · rw [if_neg hg]
        cases b with
        | true => exact ih true
        | false =>
            rw [if_neg (by simp)]
            exact noDD_cons_of_headUnd _ (subRunsAux_true_headUnd good hgu rest) (ih true)

theorem subRunsAux_id (good : Char → Bool) (hgu : good '_' = false) :
    ∀ l : List Char, (∀ c ∈ l, (good c || c == '_') = true) → noDD l = true →
      subRunsAux good '_' false l = l
      ∧ (headUnd l = false → subRunsAux good '_' true l = l) := by
  intro l
  induction l with
  | nil => exact fun _ _ => ⟨rfl, fun _ => rfl⟩
  | cons c rest ih =>
      intro hall hnd
      have hrest := ih (fun d hd => hall d (List.mem_cons_of_mem _ hd)) (noDD_tail _ _ hnd)
      by_cases hg : good c = true
      · constructor
        · simp only [subRunsAux, if_pos hg]
          rw [hrest.1]
        · intro _
          simp only [subRunsAux, if_pos hg]
          rw [hrest.1]
      · have hcu : (c == '_') = true := by
          have := hall c (List.mem_cons_self ..)
          rw [Bool.or_eq_true] at this
          rcases this with h | h
          · exact absurd h hg
          · exact h
        rw [beq_iff_eq] at hcu
        subst hcu
        constructor
        · simp only [subRunsAux, if_neg hg, Bool.false_eq_true, if_false]
          have hh : headUnd rest = false := by
            cases rest with
            | nil => rfl
            | cons d rest' =>
                rw [headUnd_cons]
                exact noDD_head _ _ _ hnd rfl
          rw [hrest.2 hh]
        · intro hfalse
          rw [headUnd_cons] at hfalse
          simp at hfalse

theorem mem_of_mem_dropWhile_und (p : Char → Bool) :
    ∀ l : List Char, ∀ c ∈ l.dropWhile p, c ∈ l := by
  intro l
  induction l with
  | nil => intro c hc; simp [List.dropWhile] at hc
  | cons d rest ih =>
      intro c hc
      rw [List.dropWhile_cons] at hc
      by_cases hp : p d = true
      · rw [if_pos hp] at hc
        exact List.mem_cons_of_mem _ (ih c hc)
      · rw [if_neg hp] at hc
        exact hc

theorem mem_of_mem_dropTrailing (p : Char → Bool) :
    ∀ l : List Char, ∀ c ∈ dropTrailing p l, c ∈ l := by
  intro l
  induction l with
  | nil => intro c hc; simp [dropTrailing] at hc
  | cons d rest ih =>
      intro c hc
      simp only [dropTrailing] at hc
      cases hr : dropTrailing p rest with
      | nil =>
          rw [hr] at hc
          by_cases hp : p d = true
          · rw [if_pos hp] at hc
            simp at hc
          · rw [if_neg hp] at hc
            rcases List.mem_singleton.mp hc with rfl
            exact List.mem_cons_self ..
      | cons e r =>
          rw [hr] at hc
          rcases List.mem_cons.mp hc with rfl | hc
          · exact List.mem_cons_self ..
          · exact List.mem_cons_of_mem _ (ih c (hr ▸ hc))

theorem noDD_dropWhile_und :
    ∀ l : List Char, noDD l = true → noDD (l.dropWhile (fun c => c == '_')) = true := by
  intro l
  induction l with
  | nil => intro h; exact h
  | cons d rest ih =>
      intro h
      rw [List.dropWhile_cons]
      by_cases hp : (d == '_') = true
      · rw [if_pos hp]
        exact ih (noDD_tail _ _ h)
      · rw [if_neg hp]
        exact h

theorem dropTrailing_head (p : Char → Bool) (c : Char) (rest : List Char) :
    dropTrailing p (c :: rest) = [] ∨ ∃ r, dropTrailing p (c :: rest) = c :: r := by
  simp only [dropTrailing]
  cases dropTrailing p rest with
  | nil =>
      by_cases hp : p c = true
      · rw [if_pos hp]; exact Or.inl rfl
      · rw [if_neg hp]; exact Or.inr ⟨[], rfl⟩
  | cons e r => exact Or.inr ⟨e :: r, rfl⟩

theorem noDD_dropTrailing (p : Char → Bool) :
    ∀ l : List Char, noDD l = true → noDD (dropTrailing p l) = true := by
  intro l
  induction l with
  | nil => intro h; exact h
  | cons c rest ih =>
      intro h
      simp only [dropTrailing]
      cases hr : dropTrailing p rest with
      | nil =>
          by_cases hp : p c = true
          · rw [if_pos hp]; rfl
          · rw [if_neg hp]; rfl
      | cons e r =>
          have hnd1 : noDD (e :: r) = true := by
            rw [← hr]
            exact ih (noDD_tail _ _ h)
          cases rest with
          | nil => simp [dropTrailing] at hr
          | cons d rest' =>
              have hed : e = d := by
                rcases dropTrailing_head p d rest' with h0 | ⟨r', hr'⟩
                · rw [h0] at hr; exact absurd hr (by simp)
                · rw [hr'] at hr
                  injection hr with h1 h2
                  exact h1.symm
              subst hed
              cases hcu : (c == '_')
              · exact noDD_cons_of_ne _ _ hcu hnd1
              · rw [beq_iff_eq] at hcu
                subst hcu
                apply noDD_cons_of_headUnd _ _ hnd1
                rw [headUnd_cons]
                exact noDD_head _ _ _ h rfl

theorem lastUnd_dropTrailing :
    ∀ l : List Char, lastUnd (dropTrailing (fun c => c == '_') l) = false := by
  intro l
  induction l with
  | nil => rfl
  | cons c rest ih =>
      simp only [dropTrailing]
      cases hr : dropTrailing (fun c => c == '_') rest with
      | nil =>
          by_cases hp : (c == '_') = true
          · rw [if_pos hp]; rfl
          · rw [if_neg hp]
            simp only [lastUnd]
            cases hb : (c == '_')
            · rfl
            · exact absurd hb hp
      | cons e r =>
          show lastUnd (c :: e :: r) = false
          rw [show lastUnd (c :: e :: r) = lastUnd (e :: r) from rfl, ← hr]
          exact ih

theorem headUnd_dropWhile_und :
    ∀ l : List Char, headUnd (l.dropWhile (fun c => c == '_')) = false := by
  intro l
  induction l with
  | nil => rfl
  | cons c rest ih =>
      rw [List.dropWhile_cons]
      by_cases hp : (c == '_') = true
      · rw [if_pos hp]; exact ih
      · rw [if_neg hp]
        rw [headUnd_cons]
        cases hb : (c == '_')
        · rfl
        · exact absurd hb hp

theorem headUnd_dropTrailing (p : Char → Bool) :
    ∀ l : List Char, headUnd l = false → headUnd (dropTrailing p l) = false := by
  intro l
  cases l with
  | nil => intro h; exact h
  | cons c rest =>
      intro h
      rcases dropTrailing_head p c rest with h0 | ⟨r, hr⟩
      · rw [h0]; rfl
      · rw [hr, headUnd_cons]
        rw [headUnd_cons] at h
        exact h

theorem isLowerAlnum_toNat (c : Char) (h : isLowerAlnum c = true) :
    (97 ≤ c.toNat ∧ c.toNat ≤ 122) ∨ (48 ≤ c.toNat ∧ c.toNat ≤ 57) := by
  unfold isLowerAlnum at h
  rw [Bool.or_eq_true, Bool.and_eq_true, Bool.and_eq_true] at h
  rcases h with ⟨h1, h2⟩ | ⟨h1, h2⟩
  · rw [decide_eq_true_eq] at h1 h2
    exact Or.inl ⟨h1, h2⟩
  · rw [decide_eq_true_eq] at h1 h2
    exact Or.inr ⟨h1, h2⟩

/-- Characters of a sanitized identifier are fixed by `str.lower()`. -/
theorem toLower_fix (c : Char)
    (h : (isLowerAlnum c || c == '_' || c == '.') = true) : c.toLower = c := by
  by_cases ha : isLowerAlnum c = true
  · rcases isLowerAlnum_toNat c ha with ⟨h1, h2⟩ | ⟨h1, h2⟩ <;>
      (unfold Char.toLower; rw [if_neg (by omega)])
  · have h' : (c == '_' || c == '.') = true := by
      rcases Bool.or_eq_true .. |>.mp h with h' | h'
      · rcases Bool.or_eq_true .. |>.mp h' with h'' | h''
        · exact absurd h'' ha
        · rw [Bool.or_eq_true]; exact Or.inl h''
      · rw [Bool.or_eq_true]; exact Or.inr h'
    rcases Bool.or_eq_true .. |>.mp h' with h'' | h'' <;>
      (rw [beq_iff_eq] at h''; subst h''; decide)

/-- Characters of a sanitized identifier are not Python whitespace. -/
theorem charsOK_not_space (c : Char)
    (h : (isLowerAlnum c || c == '_' || c == '.') = true) : isPySpace c = false := by
  cases hs : isPySpace c
  · rfl
  · exfalso
    unfold isPySpace at hs
    simp only [Bool.or_eq_true, beq_iff_eq] at hs
    rcases hs with ((((rfl | rfl) | rfl) | rfl) | rfl) | rfl <;> exact absurd h (by decide)

theorem dropWhile_eq_self_of_all (p : Char → Bool) (l : List Char)
    (h : ∀ c ∈ l, p c = false) : l.dropWhile p = l := by
  cases l with
  | nil => rfl
  | cons c rest =>
      rw [List.dropWhile_cons, if_neg]
      rw [h c (List.mem_cons_self ..)]
      simp

theorem dropWhile_und_eq_self (l : List Char) (hh : headUnd l = false) :
    l.dropWhile (fun c => c == '_') = l := by
  cases l with
  | nil => rfl
  | cons c rest =>
      rw [headUnd_cons] at hh
      rw [List.dropWhile_cons, if_neg]
      rw [hh]
      simp

theorem dropTrailing_und_eq_self :
    ∀ l : List Char, lastUnd l = false → dropTrailing (fun c => c == '_') l = l := by
  intro l
  induction l with
  | nil => intro _; rfl
  | cons c rest ih =>
      intro hl
      cases rest with
      | nil =>
          simp only [lastUnd] at hl
          simp [dropTrailing, hl]
      | cons d rest' =>
          have hl' : lastUnd (d :: rest') = false := hl
          show (match dropTrailing (fun c => c == '_') (d :: rest') with
            | [] => if ((c == '_') = true) then [] else [c]
            | r => c :: r) = c :: d :: rest'
          rw [ih hl']

/-- Python `str.strip()` is the identity on sanitized identifiers. -/
theorem pyStripList_eq_self (l : List Char) (h : ∀ c ∈ l, isPySpace c = false) :
    pyStripList l = l := by
  unfold pyStripList
  rw [dropWhile_eq_self_of_all _ _ h,
    dropWhile_eq_self_of_all _ _ (fun c hc => h c (List.mem_reverse.mp hc)),
    List.reverse_reverse]

/-- The structural properties of `safe_ident` output: characters are
lower-case alphanumerics or `_`, underscores are never adjacent, the
string neither starts nor ends with `_`, and it is non-empty. -/
theorem safe_ident_props (s : String) :
    (∀ c ∈ (safe_ident s).data, (isLowerAlnum c || c == '_') = true)
    ∧ noDD (safe_ident s).data = true
    ∧ headUnd (safe_ident s).data = false
    ∧ lastUnd (safe_ident s).data = false
    ∧ (safe_ident s).data ≠ [] := by
  simp only [safe_ident]
  set s1 := pyLower (pyStrip s) with hs1
  set u1 := subRuns isLowerAlnum '_' s1.data with hu1
  have hall1 : ∀ c ∈ u1, (isLowerAlnum c || c == '_') = true :=
    fun c hc => subRunsAux_all isLowerAlnum '_' s1.data false c hc
  have hnd1 : noDD u1 = true := subRunsAux_noDD isLowerAlnum (by decide) s1.data false
  have hcollapse : subRuns (fun c => c != '_') '_' u1 = u1 := by
    apply (subRunsAux_id (fun c => c != '_') (by decide) u1 ?_ hnd1).1
    intro c _
    cases hb : (c == '_')
    · simp [bne, hb]
    · simp [bne, hb]
  rw [hcollapse]
  set t := stripEnds (fun c => c == '_') u1 with ht
  have hallt : ∀ c ∈ t, (isLowerAlnum c || c == '_') = true := by
    intro c hc
    rw [ht] at hc
    unfold stripEnds at hc
    exact hall1 c (mem_of_mem_dropWhile_und _ _ c (mem_of_mem_dropTrailing _ _ c hc))
  have hndt : noDD t = true := by
    rw [ht]
    unfold stripEnds
    exact noDD_dropTrailing _ _ (noDD_dropWhile_und _ hnd1)
  have hht : headUnd t = false := by
    rw [ht]
    unfold stripEnds
    exact headUnd_dropTrailing _ _ (headUnd_dropWhile_und _)
  have hlt : lastUnd t = false := by
    rw [ht]
    unfold stripEnds
    exact lastUnd_dropTrailing _
  by_cases hemp : t.isEmpty = true
  · rw [if_pos hemp]
    refine ⟨?_, rfl, rfl, rfl, by decide⟩
    intro c hc
    rcases List.mem_singleton.mp hc with rfl
    decide
  · rw [if_neg hemp]
    exact ⟨hallt, hndt, hht, hlt, fun he => hemp (by rw [List.isEmpty_iff]; exact he)⟩

/-- The function `safe_ident` fixes every string that already has the sanitized
shape. -/
theorem safe_ident_fix (l : List Char)
    (hall : ∀ c ∈ l, (isLowerAlnum c || c == '_') = true)
    (hnd : noDD l = true) (hh : headUnd l = false) (hl : lastUnd l = false)
    (hne : l ≠ []) : safe_ident ⟨l⟩ = ⟨l⟩ := by
  have hall3 : ∀ c ∈ l, (isLowerAlnum c || c == '_' || c == '.') = true := by
    intro c hc
    rw [Bool.or_eq_true]
    exact Or.inl (hall c hc)
  have hstrip : pyStrip ⟨l⟩ = ⟨l⟩ := by
    unfold pyStrip
    show (⟨pyStripList l⟩ : String) = ⟨l⟩
    rw [pyStripList_eq_self l (fun c hc => charsOK_not_space c (hall3 c hc))]
  have hlower : pyLower ⟨l⟩ = ⟨l⟩ := by
    unfold pyLower
    show (⟨l.map Char.toLower⟩ : String) = ⟨l⟩
    congr 1
    rw [List.map_congr_left (fun c hc => toLower_fix c (hall3 c hc))]
    exact List.map_id l
  unfold safe_ident
  rw [hstrip, hlower]
  show (if (stripEnds (fun c => c == '_')
      (subRuns (fun c => c != '_') '_' (subRuns isLowerAlnum '_' l))).isEmpty
    then ("x" : String)
    else ⟨stripEnds (fun c => c == '_')
      (subRuns (fun c => c != '_') '_' (subRuns isLowerAlnum '_' l))⟩) = ⟨l⟩
  have h1 : subRuns isLowerAlnum '_' l = l :=
    (subRunsAux_id isLowerAlnum (by decide) l hall hnd).1
  rw [h1]
  have h2 : subRuns (fun c => c != '_') '_' l = l := by
    apply (subRunsAux_id (fun c => c != '_') (by decide) l ?_ hnd).1
    intro c _
    cases hb : (c == '_')
    · simp [bne, hb]
    · simp [bne, hb]
  rw [h2]
  unfold stripEnds
  rw [dropWhile_und_eq_self l hh, dropTrailing_und_eq_self l hl]
  rw [if_neg]
  intro hcon
  rw [List.isEmpty_iff] at hcon
  exact hne hcon

/-- A list with sanitized shape is accepted by the identifier
automaton. -/
theorem identAut_of_props :
    ∀ l : List Char, (∀ c ∈ l, (isLowerAlnum c || c == '_') = true) →
      noDD l = true → lastUnd l = false →
      ((headUnd l = false → l ≠ [] → identAut false l = true)
        ∧ identAut true l = true) := by
  intro l
  induction l with
  | nil => exact fun _ _ _ => ⟨fun _ h => absurd rfl h, rfl⟩
  | cons c rest ih =>
      intro hall hnd hlast
      have hlast' : lastUnd rest = false := by
        cases rest with
        | nil => rfl
        | cons d rest' => exact hlast
      have ihr := ih (fun d hd => hall d (List.mem_cons_of_mem _ hd))
        (noDD_tail _ _ hnd) hlast'
      constructor
      · intro hh _
        rw [headUnd_cons] at hh
        have hc : isLowerAlnum c = true := by
          rcases Bool.or_eq_true .. |>.mp (hall c (List.mem_cons_self ..)) with h | h
          · exact h
          · rw [h] at hh; exact absurd hh (by simp)
        show (isLowerAlnum c && identAut true rest) = true
        rw [hc, ihr.2]
        rfl
      · show identAut true (c :: rest) = true
        cases hcu : (c == '_')
        · have hc : isLowerAlnum c = true := by
            rcases Bool.or_eq_true .. |>.mp (hall c (List.mem_cons_self ..)) with h | h
            · exact h
            · rw [h] at hcu; exact absurd hcu (by simp)
          unfold identAut
          rw [if_neg (by rw [hcu]; simp), hc, ihr.2]
          rfl
        · rw [beq_iff_eq] at hcu
          subst hcu
          unfold identAut
          rw [if_pos (show (('_' : Char) == '_') = true from rfl)]
          have hne : rest ≠ [] := by
            intro hr
            subst hr
            simp [lastUnd] at hlast
          have hhr : headUnd rest = false := by
            cases rest with
            | nil => rfl
            | cons d rest' =>
                rw [headUnd_cons]
                exact noDD_head _ _ _ hnd rfl
          exact ihr.1 hhr hne

theorem isToolChar_of (c : Char) (h : (isLowerAlnum c || c == '_' || c == '.') = true) :
    isToolChar c = true := by
  unfold isToolChar
  rcases Bool.or_eq_true .. |>.mp h with h' | hdot
  · rcases Bool.or_eq_true .. |>.mp h' with hal | hund
    · unfold isLowerAlnum at hal
      rcases Bool.or_eq_true .. |>.mp hal with h1 | h1 <;> simp [h1]
    · simp [hund]
  · simp [hdot]

theorem strTake_length (s : String) (k : Nat) : (strTake s k).length = min k s.length := by
  show (s.data.take k).length = min k s.data.length
  exact List.length_take ..

/-- The function `claude_safe_tool_name` passes already-sanitized tool names of
length at most 64 through unchanged. -/
theorem claude_safe_fix (md5hex : String → String) (l : List Char)
    (hall : ∀ c ∈ l, (isLowerAlnum c || c == '_' || c == '.') = true)
    (hnd : noDD l = true) (hh : headUnd l = false) (hl : lastUnd l = false)
    (hlen : l.length ≤ 64) :
    claude_safe_tool_name md5hex ⟨l⟩ = ⟨l⟩ := by
  simp only [claude_safe_tool_name]
  have h1 : subEach isToolChar '_' l = l := by
    unfold subEach
    rw [List.map_congr_left (fun c hc => by rw [if_pos (isToolChar_of c (hall c hc))])]
    exact List.map_id l
  rw [h1]
  have h2 : subRuns (fun c => c != '_') '_' l = l := by
    apply (subRunsAux_id (fun c => c != '_') (by decide) l ?_ hnd).1
    intro c _
    cases hb : (c == '_')
    · simp [bne, hb]
    · simp [bne, hb]
  rw [h2]
  unfold stripEnds
  rw [dropWhile_und_eq_self l hh, dropTrailing_und_eq_self l hl]
  have h3 : pyLower ⟨l⟩ = ⟨l⟩ := by
    unfold pyLower
    show (⟨l.map Char.toLower⟩ : String) = ⟨l⟩
    congr 1
    rw [List.map_congr_left (fun c hc => toLower_fix c (hall c hc))]
    exact List.map_id l
  rw [h3]
  rw [if_pos]
  show l.length ≤ 64
  exact hlen

/-- The truncated branch of `claude_safe_tool_name` never exceeds 64
characters (57-character stem, an underscore and a 6-character slice of
the 32-character hex digest). -/
theorem claude_safe_length (md5hex : String → String) (name : String)
    (hm : ∀ u, (md5hex u).length = 32) :
    (claude_safe_tool_name md5hex name).length ≤ 64 := by
  simp only [claude_safe_tool_name]
  set cleaned := pyLower ⟨stripEnds (fun c => c == '_')
    (subRuns (fun c => c != '_') '_' (subEach isToolChar '_' name.data))⟩ with hcl
  by_cases hl : cleaned.length ≤ 64
  · rw [if_pos hl]
    exact hl
  · rw [if_neg hl]
    rw [String.length_append, String.length_append, strTake_length, strTake_length]
    have h32 := hm cleaned
    rw [h32]
    have h1 : ("_" : String).length = 1 := rfl
    rw [h1]
    omega

/-- Claim C8 (amended): the sanitizer's output is lower-case
alphanumeric chunks joined by single separators with no leading or
trailing separator and non-empty, and sanitizing is idempotent; the
64-character bound belongs to the bounded variant only, which passes
already-sanitized identifiers of length at most 64 through unchanged
and otherwise truncates and appends an underscore plus a 6-character
slice of the deterministic digest, never exceeding 64 characters. -/
theorem C8_sanitizer_shape :
    (∀ s, identAut false (safe_ident s).data = true) ∧
    (∀ s, safe_ident (safe_ident s) = safe_ident s) ∧
    (∀ s, safe_ident s ≠ "") ∧
    (∀ (md5hex : String → String) (l : List Char),
      (∀ c ∈ l, (isLowerAlnum c || c == '_' || c == '.') = true) →
      noDD l = true → headUnd l = false → lastUnd l = false →
      l.length ≤ 64 →
      claude_safe_tool_name md5hex ⟨l⟩ = ⟨l⟩) ∧
    (∀ (md5hex : String → String) (name : String),
      (∀ u, (md5hex u).length = 32) →
      (claude_safe_tool_name md5hex name).length ≤ 64) := by
  refine ⟨?_, ?_, ?_, claude_safe_fix, claude_safe_length⟩
  · intro s
    obtain ⟨hall, hnd, hh, hl, hne⟩ := safe_ident_props s
    exact (identAut_of_props _ hall hnd hl).1 hh hne
  · intro s
    obtain ⟨hall, hnd, hh, hl, hne⟩ := safe_ident_props s
    exact safe_ident_fix (safe_ident s).data hall hnd hh hl hne
  · intro s heq
    obtain ⟨-, -, -, -, hne⟩ := safe_ident_props s
    exact hne (congrArg String.data heq)

/-- Witness for `C8_sanitizer_shape` at concrete inputs. -/
theorem C8_sanitizer_shape_witness :
    identAut false (safe_ident "Get Employee Records!").data = true ∧
    safe_ident (safe_ident "Get Employee Records!") = safe_ident "Get Employee Records!" ∧
    claude_safe_tool_name (fun _ => "0123456789abcdef0123456789abcdef") "employee.get"
      = "employee.get" ∧
    (claude_safe_tool_name (fun _ => "0123456789abcdef0123456789abcdef")
      ⟨List.replicate 70 'a'⟩).length ≤ 64 := by
  refine ⟨C8_sanitizer_shape.1 _, C8_sanitizer_shape.2.1 _, ?_, ?_⟩
  · exact C8_sanitizer_shape.2.2.2.1 _ "employee.get".data
      (by decide) (by decide) (by decide) (by decide) (by decide)
  · exact C8_sanitizer_shape.2.2.2.2 _ _ (fun u => rfl)

/-- Claim C8, counterexample to the claim as stated: the plain
sanitizer applies no length bound — 65 repeated letters sanitize to
themselves, exceeding 64 characters. -/
theorem C8_counterexample :
    safe_ident ⟨List.replicate 65 'a'⟩ = ⟨List.replicate 65 'a'⟩
    ∧ 64 < (safe_ident ⟨List.replicate 65 'a'⟩).length := by
  constructor
  · decide
  · decide

/-! ## Claim C2: canonical key uniqueness

Support: a recursive characterization of `Nat.repr`, its injectivity
and a digit-length bound, feeding the pigeonhole argument for the
collision loop. -/

theorem toDigitsCore_eq :
    ∀ (fuel n : Nat) (ds : List Char), n < fuel →
      Nat.toDigitsCore 10 fuel n ds = digitsRec n ++ ds := by
  intro fuel
  induction fuel with
  | zero => intro n ds h; exact absurd h (Nat.not_lt_zero n)
  | succ f ih =>
      intro n ds h
      show (if n / 10 = 0 then Nat.digitChar (n % 10) :: ds
        else Nat.toDigitsCore 10 f (n / 10) (Nat.digitChar (n % 10) :: ds))
        = digitsRec n ++ ds
      by_cases h0 : n / 10 = 0
      · have hn : n < 10 := by omega
      
        rw [if_pos h0, digitsRec, if_pos hn, Nat.mod_eq_of_lt hn]
        rfl
      · have hn : ¬ n < 10 := by
          intro hc
          exact h0 (Nat.div_eq_of_lt hc)
        rw [if_neg h0, ih (n / 10) _ (by
          have hlt : n / 10 < n := Nat.div_lt_self (by omega) (by omega)
          omega)]
        have hdr : digitsRec n = digitsRec (n / 10) ++ [Nat.digitChar (n % 10)] := by
          rw [digitsRec]
          rw [if_neg hn]
        rw [hdr, List.append_assoc]
        rfl

theorem repr_eq_digitsRec (n : Nat) : Nat.repr n = ⟨digitsRec n⟩ := by
  show (Nat.toDigitsCore 10 (n + 1) n []).asString = _
  rw [toDigitsCore_eq (n + 1) n [] (Nat.lt_succ_self n), List.append_nil]
  rfl

theorem decDigits_append_digit (l : List Char) (c : Char) :
    decDigits (l ++ [c]) = 10 * decDigits l + charDigitVal c := by
  unfold decDigits
  rw [List.foldl_append]
  rfl

theorem charDigitVal_digitChar (d : Nat) (h : d < 10) :
    charDigitVal (Nat.digitChar d) = d := by
  interval_cases d <;> decide

theorem decDigits_digitsRec (n : Nat) : decDigits (digitsRec n) = n := by
  induction n using Nat.strong_induction_on with
  | _ n ih =>
      by_cases h : n < 10
      · rw [digitsRec, if_pos h]
        show 10 * 0 + charDigitVal (Nat.digitChar n) = n
        rw [charDigitVal_digitChar n h]
        omega
      · rw [digitsRec, if_neg h, decDigits_append_digit,
          ih (n / 10) (Nat.div_lt_self (by omega) (by omega)),
          charDigitVal_digitChar (n % 10) (Nat.mod_lt n (by omega))]
        omega

theorem natRepr_injective (m n : Nat) (h : Nat.repr m = Nat.repr n) : m = n := by
  rw [repr_eq_digitsRec, repr_eq_digitsRec] at h
  have hd : digitsRec m = digitsRec n := congrArg String.data h
  calc m = decDigits (digitsRec m) := (decDigits_digitsRec m).symm
    _ = decDigits (digitsRec n) := by rw [hd]
    _ = n := decDigits_digitsRec n

/-- For realistic indices the slice in the collision candidate is a
no-op: the candidate is `base ++ "_" ++ repr i`. -/
theorem candKey_eq (base : String) (i : Nat) (hb : base.length ≤ 55)
    (hi : i < 10 ^ 7) : candKey base i = base ++ ("_" ++ Nat.repr i) := by
  have hri : (Nat.repr i).length ≤ 7 := Nat.repr_length i 7 (by omega) hi
  have hslen : ("_" ++ Nat.repr i).length = 1 + (Nat.repr i).length := by
    rw [String.length_append]
    rfl
  have hk : ¬ ((64 : Int) - (("_" ++ Nat.repr i).length : Int) < 0) := by
    rw [hslen]
    omega
  simp only [candKey, pySliceTo]
  rw [if_neg hk]
  congr 1
  show (⟨base.data.take ((64 - (("_" ++ Nat.repr i).length : Int)).toNat)⟩ : String) = base
  have htake : base.data.length ≤ ((64 : Int) - (("_" ++ Nat.repr i).length : Int)).toNat := by
    rw [hslen]
    have : base.data.length = base.length := rfl
    omega
  rw [List.take_of_length_le htake]

theorem candKey_inj (base : String) (hb : base.length ≤ 55) (i j : Nat)
    (hi : i < 10 ^ 7) (hj : j < 10 ^ 7)
    (h : candKey base i = candKey base j) : i = j := by
  rw [candKey_eq base i hb hi, candKey_eq base j hb hj] at h
  have hdata := congrArg String.data h
  rw [String.data_append, String.data_append, String.data_append, String.data_append] at hdata
  have h1 := List.append_cancel_left hdata
  have h2 := List.append_cancel_left h1
  exact natRepr_injective i j (congrArg (fun l => (⟨l⟩ : String)) h2)

/-- Pigeonhole: among the first `|keys| + 1` collision candidates, at
least one is fresh. -/
theorem exists_fresh_cand (ks : List String) (base : String) (hb : base.length ≤ 55)
    (hN : ks.length ≤ 10 ^ 6) :
    ∃ i, 1 ≤ i ∧ i ≤ ks.length + 1 ∧ candKey base i ∉ ks := by
  by_contra hcon
  push_neg at hcon
  have hall : ∀ i, 1 ≤ i → i ≤ ks.length + 1 → candKey base i ∈ ks := hcon
  set L := (List.range (ks.length + 1)).map (fun j => candKey base (j + 1)) with hL
  have hnd : L.Nodup := by
    apply List.Nodup.map_on ?_ (List.nodup_range ..)
    intro x hx y hy hxy
    rw [List.mem_range] at hx hy
    have := candKey_inj base hb (x + 1) (y + 1) (by omega) (by omega) hxy
    omega
  have hsub : L.toFinset ⊆ ks.toFinset := by
    intro a ha
    rw [List.mem_toFinset] at ha
    rw [List.mem_toFinset]
    rw [hL, List.mem_map] at ha
    obtain ⟨j, hj, rfl⟩ := ha
    rw [List.mem_range] at hj
    exact hall (j + 1) (by omega) (by omega)
  have hcard1 : L.toFinset.card = ks.length + 1 := by
    rw [List.toFinset_card_of_nodup hnd, hL, List.length_map, List.length_range]
  have hcard2 := Finset.card_le_card hsub
  have hcard3 := List.toFinset_card_le (l := ks)
  omega

theorem contains_iff_mem_str (ks : List String) (x : String) :
    ks.contains x = true ↔ x ∈ ks := by
  show ks.elem x = true ↔ x ∈ ks
  rw [List.elem_eq_mem]
  exact decide_eq_true_iff

/-- The collision loop's result is a candidate with index in the
scanned window. -/
theorem findFreshKey_shape (ks : List String) (base : String) :
    ∀ (fuel i : Nat), ∃ j, i ≤ j ∧ j ≤ i + fuel ∧
      findFreshKey ks base fuel i = candKey base j := by
  intro fuel
  induction fuel with
  | zero => intro i; exact ⟨i, Nat.le_refl i, by omega, rfl⟩
  | succ f ih =>
      intro i
      unfold findFreshKey
      by_cases hc : ks.contains (candKey base i) = true
      · rw [if_pos hc]
        obtain ⟨j, h1, h2, h3⟩ := ih (i + 1)
        exact ⟨j, by omega, by omega, h3⟩
      · rw [if_neg hc]
        exact ⟨i, Nat.le_refl i, by omega, rfl⟩

/-- With a fresh candidate inside the fuel window, the collision loop
returns a fresh key. -/
theorem findFreshKey_fresh (ks : List String) (base : String) :
    ∀ (fuel i : Nat),
      (∃ j, i ≤ j ∧ j < i + fuel ∧ candKey base j ∉ ks) →
      findFreshKey ks base fuel i ∉ ks := by
  intro fuel
  induction fuel with
  | zero =>
      intro i ⟨j, h1, h2, _⟩
      omega
  | succ f ih =>
      intro i ⟨j, h1, h2, h3⟩
      unfold findFreshKey
      by_cases hc : ks.contains (candKey base i) = true
      · rw [if_pos hc]
        apply ih (i + 1)
        refine ⟨j, ?_, by omega, h3⟩
        rcases Nat.eq_or_lt_of_le h1 with rfl | hlt
        · rw [contains_iff_mem_str] at hc
          exact absurd hc h3
        · omega
      · rw [if_neg hc]
        exact fun hm => hc ((contains_iff_mem_str ks _).mpr hm)

theorem pySliceTo_length_le (s : String) (k : Int) (hk : 0 ≤ k) :
    (pySliceTo s k).length ≤ k.toNat := by
  unfold pySliceTo
  rw [if_neg (by omega)]
  show (s.data.take k.toNat).length ≤ k.toNat
  rw [List.length_take]
  omega

theorem base_key_length (ep : Endpoint) : (base_key ep).length ≤ 55 := by
  simp only [base_key]
  exact pySliceTo_length_le _ 55 (by omega)

theorem assignKey_spec (ks : List String) (base : String) (hb : base.length ≤ 55)
    (hN : ks.length ≤ 10 ^ 6) :
    assignKey ks base ∉ ks ∧ (assignKey ks base).length ≤ 64 := by
  unfold assignKey
  by_cases hc : ks.contains base = true
  · rw [if_pos hc]
    constructor
    · apply findFreshKey_fresh
      obtain ⟨i, h1, h2, h3⟩ := exists_fresh_cand ks base hb hN
      exact ⟨i, h1, by omega, h3⟩
    · obtain ⟨j, hj1, hj2, hj3⟩ := findFreshKey_shape ks base (ks.length + 1) 1
      rw [hj3, candKey_eq base j hb (by omega)]
      rw [String.length_append, String.length_append]
      have hr := Nat.repr_length j 7 (by omega) (by omega)
      have h1 : ("_" : String).length = 1 := rfl
      omega
  · rw [if_neg hc]
    constructor
    · exact fun hm => hc ((contains_iff_mem_str ks base).mpr hm)
    · omega

theorem alistHas_eq_keys_contains (m : List (String × α)) (k : String) :
    alistHas m k = (m.map (fun kv => kv.1)).contains k := by
  induction m with
  | nil => rfl
  | cons kv rest ih =>
      obtain ⟨k', v⟩ := kv
      show (k' == k || alistHas rest k) = ((k' :: rest.map (fun kv => kv.1)).contains k)
      have hcc : ((k' :: rest.map (fun kv => kv.1)).contains k)
          = ((k == k') || (rest.map (fun kv => kv.1)).contains k) := rfl
      rw [hcc, ih]
      by_cases h : k' = k
      · subst h
        rfl
      · have h1 : (k' == k) = false := beq_eq_false_iff_ne.mpr h
        have h2 : (k == k') = false := beq_eq_false_iff_ne.mpr (Ne.symm h)
        rw [h1, h2]

theorem generate_mapping_aux_spec :
    ∀ (eps : List Endpoint) (acc : List (String × Endpoint)),
      (acc.map (fun kv => kv.1)).Nodup →
      (∀ k ∈ acc.map (fun kv => kv.1), k.length ≤ 64) →
      acc.length + eps.length ≤ 10 ^ 6 →
      ((generate_mapping_aux eps acc).map (fun kv => kv.1)).Nodup
      ∧ (generate_mapping_aux eps acc).map (fun kv => kv.2)
          = acc.map (fun kv => kv.2) ++ eps
      ∧ ∀ k ∈ (generate_mapping_aux eps acc).map (fun kv => kv.1), k.length ≤ 64 := by
  intro eps
  induction eps with
  | nil =>
      intro acc h1 h2 _
      exact ⟨h1, by simp [generate_mapping_aux], h2⟩
  | cons ep rest ih =>
      intro acc h1 h2 hlen
      have hbk := base_key_length ep
      have hmaplen : (acc.map (fun kv => kv.1)).length = acc.length := List.length_map ..
      have hkslen : (acc.map (fun kv => kv.1)).length ≤ 10 ^ 6 := by omega
      obtain ⟨hfresh, hklen⟩ :=
        assignKey_spec (acc.map (fun kv => kv.1)) (base_key ep) hbk hkslen
      have hnotHas : alistHas acc (assignKey (acc.map (fun kv => kv.1)) (base_key ep)) = false := by
        rw [alistHas_eq_keys_contains]
        cases hcc : ((acc.map (fun kv => kv.1)).contains
          (assignKey (acc.map (fun kv => kv.1)) (base_key ep)))
        · rfl
        · exact absurd ((contains_iff_mem_str ..).mp hcc) hfresh
      set key := assignKey (acc.map (fun kv => kv.1)) (base_key ep) with hkey
      have hstep : generate_mapping_aux (ep :: rest) acc
          = generate_mapping_aux rest (acc ++ [(key, ep)]) := by
        show generate_mapping_aux rest (alistSet acc key ep)
          = generate_mapping_aux rest (acc ++ [(key, ep)])
        rw [alistSet_of_not_has acc _ ep hnotHas]
      rw [hstep]
      have hnd' : ((acc ++ [(key, ep)]).map (fun kv => kv.1)).Nodup := by
        rw [List.map_append]
        apply List.Nodup.append h1 (List.nodup_singleton key)
        intro a ha hb
        rcases List.mem_singleton.mp hb with rfl
        exact hfresh ha
      have hall' : ∀ k ∈ (acc ++ [(key, ep)]).map (fun kv => kv.1), k.length ≤ 64 := by
        rw [List.map_append]
        intro k hk
        rcases List.mem_append.mp hk with hk | hk
        · exact h2 k hk
        · rcases List.mem_singleton.mp hk with rfl
          exact hklen
      have hlen' : (acc ++ [(key, ep)]).length + rest.length ≤ 10 ^ 6 := by
        rw [List.length_append]
        simp only [List.length_singleton]
        simp only [List.length_cons] at hlen
        omega
      obtain ⟨r1, r2, r3⟩ := ih (acc ++ [(key, ep)]) hnd' hall' hlen'
      refine ⟨r1, ?_, r3⟩
      rw [r2, List.map_append]
      simp

/-- Claim C2 (amended, underscore scheme): for every realistically
sized endpoint list (at most `10^6` endpoints), the generator's
underscore-joined keys are pairwise distinct and at most 64 characters
long, and no endpoint's entry is overwritten — the mapping holds
exactly one entry per endpoint, in order. -/
theorem C2_canonical_keys (eps : List Endpoint) (h : eps.length ≤ 10 ^ 6) :
    ((generate_mapping eps).map (fun kv => kv.1)).Nodup
    ∧ (generate_mapping eps).map (fun kv => kv.2) = eps
    ∧ ∀ k ∈ (generate_mapping eps).map (fun kv => kv.1), k.length ≤ 64 := by
  have hspec := generate_mapping_aux_spec eps [] List.nodup_nil (by intro k hk; simp at hk)
    (by simpa using h)
  exact ⟨hspec.1, by simpa using hspec.2.1, hspec.2.2⟩

/-- Witness for `C2_canonical_keys` on a colliding pair of endpoints
(the second key is disambiguated to `a_b_get_1`). -/
theorem C2_canonical_keys_witness :
    (((generate_mapping
        [⟨"n", "a/b", "GET", "", .empty⟩, ⟨"n", "a/b", "GET", "", .empty⟩]).map
          (fun kv => kv.1)).Nodup
      ∧ (generate_mapping
          [⟨"n", "a/b", "GET", "", .empty⟩, ⟨"n", "a/b", "GET", "", .empty⟩]).map
            (fun kv => kv.2)
        = [⟨"n", "a/b", "GET", "", .empty⟩, ⟨"n", "a/b", "GET", "", .empty⟩]
      ∧ ∀ k ∈ (generate_mapping
          [⟨"n", "a/b", "GET", "", .empty⟩, ⟨"n", "a/b", "GET", "", .empty⟩]).map
            (fun kv => kv.1), k.length ≤ 64)
    ∧ (generate_mapping
        [⟨"n", "a/b", "GET", "", .empty⟩, ⟨"n", "a/b", "GET", "", .empty⟩]).map
          (fun kv => kv.1) = ["a_b_get", "a_b_get_1"] :=
  ⟨C2_canonical_keys _ (by decide), by decide⟩

/-- Claim C2, counterexample to the claim as stated: the dot-joined
scheme of `server.py` appends its content hash once, without retrying;
since the hash input (`url + name`) is identical for duplicate
endpoints, a third copy of the same endpoint collides with the
second's suffixed key and its dict assignment overwrites that entry.
Three endpoints leave only two entries, for any digest function
(determinism alone forces the collision; the digest is the abstract
`md5hex` parameter, instantiated here with a fixed 32-hex-digit
value). -/
theorem C2_counterexample :
    (server_tool_map (fun _ => "0123456789abcdef0123456789abcdef")
      [⟨"n", "a/b", "GET", "", .empty⟩, ⟨"n", "a/b", "GET", "", .empty⟩,
       ⟨"n", "a/b", "GET", "", .empty⟩]).length = 2 := by
  decide
